import Mathlib

/-!
# Felzenszwalb squared-distance transform: `BasinFinderFunctor<CPUDevice, T, S>`

Shallow embedding of `time_two_kernels.cc`.

* Element type `T` (`float`) is read with exact arithmetic: a value is a rational number,
  one of the two infinities, or the result of an undefined operation.
* Index type `S` (`int32`) and all `int` locals are read as unbounded integers.
* The five flat buffers are lists; every access is bounds-checked and an access outside
  the buffer ends the run with an error naming the buffer and the index.
-/

namespace BasinFinder

/-! ## Values of the element type -/

/-- Values of the element type under exact arithmetic. -/
inductive Val where
  | ninf : Val
  | fin (x : ℚ) : Val
  | pinf : Val
  | nan : Val
deriving DecidableEq

namespace Val

/-- Conversion of an `int` to the element type. -/
def ofInt (n : Int) : Val := fin (n : ℚ)

/-- Addition; opposite infinities have no sum. -/
def add : Val → Val → Val
  | fin a, fin b => fin (a + b)
  | fin _, pinf => pinf
  | fin _, ninf => ninf
  | pinf, fin _ => pinf
  | pinf, pinf => pinf
  | ninf, fin _ => ninf
  | ninf, ninf => ninf
  | _, _ => nan

/-- Negation. -/
def neg : Val → Val
  | fin a => fin (-a)
  | pinf => ninf
  | ninf => pinf
  | nan => nan

/-- Subtraction. -/
def sub (a b : Val) : Val := add a (neg b)

/-- Division; a zero denominator is the positive zero an `int` converts to. -/
def div : Val → Val → Val
  | fin a, fin b =>
    if b = 0 then (if a = 0 then nan else if 0 < a then pinf else ninf) else fin (a / b)
  | fin _, pinf => fin 0
  | fin _, ninf => fin 0
  | pinf, fin b => if 0 ≤ b then pinf else ninf
  | ninf, fin b => if 0 ≤ b then ninf else pinf
  | _, _ => nan

/-- Comparison `a <= b`; false as soon as one side is undefined. -/
def le : Val → Val → Bool
  | nan, _ => false
  | _, nan => false
  | ninf, _ => true
  | _, pinf => true
  | fin a, fin b => decide (a ≤ b)
  | _, _ => false

/-- Comparison `a < b`; false as soon as one side is undefined. -/
def lt : Val → Val → Bool
  | nan, _ => false
  | _, nan => false
  | pinf, _ => false
  | _, ninf => false
  | fin a, fin b => decide (a < b)
  | _, _ => true

end Val

/-- The constant `verybig = INFINITY`. -/
def verybig : Val := Val.pinf

/-- The macro `calcint(q,Q,f,F) = ((f+q*q) - (F+Q*Q)) / (2*q - 2*Q)`. -/
def calcint (q Q : Int) (f F : Val) : Val :=
  Val.div (Val.sub (Val.add f (Val.ofInt (q * q))) (Val.add F (Val.ofInt (Q * Q))))
    (Val.ofInt (2 * q - 2 * Q))

/-! ## Buffers -/

/-- The five buffers of the functor. -/
inductive BufId where
  | f | out | z | v | basins
deriving DecidableEq

/-- Ways a run can stop without a result. -/
inductive Err where
  | oob (b : BufId) (i : Int) : Err
  | fuel : Err
deriving DecidableEq

/-- Equality of results of a run is decidable. -/
instance decEqExcept {ε α : Type} [DecidableEq ε] [DecidableEq α] : DecidableEq (Except ε α)
  | .ok a, .ok b =>
    if h : a = b then isTrue (by rw [h]) else isFalse (fun e => h (by cases e; rfl))
  | .error a, .error b =>
    if h : a = b then isTrue (by rw [h]) else isFalse (fun e => h (by cases e; rfl))
  | .ok _, .error _ => isFalse (fun e => by cases e)
  | .error _, .ok _ => isFalse (fun e => by cases e)

/-- Read `l[i]`. -/
def rd {α : Type} (b : BufId) (l : List α) (i : Int) : Except Err α :=
  if 0 ≤ i then
    match l[i.toNat]? with
    | some x => .ok x
    | none => .error (.oob b i)
  else .error (.oob b i)

/-- Write `l[i] = x`. -/
def wr {α : Type} (b : BufId) (l : List α) (i : Int) (x : α) : Except Err (List α) :=
  if 0 ≤ i ∧ i.toNat < l.length then .ok (l.set i.toNat x) else .error (.oob b i)

/-- The four output buffers. -/
structure Bufs where
  out : List Val
  z : List Val
  v : List Int
  basins : List Int
deriving DecidableEq

/-- A loop `for (int i = start; ...; i++)` running `n` times. -/
def forLoop {σ : Type} (body : Int → σ → Except Err σ) : Nat → Int → σ → Except Err σ
  | 0, _, s => .ok s
  | n + 1, i, s =>
    match body i s with
    | .ok s1 => forLoop body n (i + 1) s1
    | .error e => .error e

/-! ## The functor -/

/-- Lines 48-49: `v[offset1+i1*dim2]=0; z[offset2+i1*dim2]=0;`, on the state `(z, v)`. -/
def initStep (dim2 offset1 offset2 : Int) (i1 : Int) (s : List Val × List Int) :
    Except Err (List Val × List Int) :=
  match wr .v s.2 (offset1 + i1 * dim2) 0 with
  | .error e => .error e
  | .ok v1 =>
    match wr .z s.1 (offset2 + i1 * dim2) (Val.ofInt 0) with
    | .error e => .error e
    | .ok z1 => .ok (z1, v1)

/-- Lines 47-51: `for(i1=0;i1<dim1;i1++) { ... }  z[offset2+dim1*dim2]=0;`. -/
def initVZ (dim1 dim2 offset1 offset2 : Int) (z : List Val) (v : List Int) :
    Except Err (List Val × List Int) :=
  match forLoop (initStep dim2 offset1 offset2) (dim1 - 0).toNat 0 (z, v) with
  | .error e => .error e
  | .ok (z1, v1) =>
    match wr .z z1 (offset2 + dim1 * dim2) (Val.ofInt 0) with
    | .error e => .error e
    | .ok z2 => .ok (z2, v1)

/-- The expression `calcint(q,v[offset1+k*dim2],f[offset1+q*dim2],f[offset1+v[offset1+k*dim2]*dim2])`
of lines 60 and 66. -/
def intersect (dim2 offset1 : Int) (f : List Val) (v : List Int) (q k : Int) : Except Err Val :=
  match rd .v v (offset1 + k * dim2) with
  | .error e => .error e
  | .ok vk =>
    match rd .f f (offset1 + q * dim2) with
    | .error e => .error e
    | .ok fq =>
      match rd .f f (offset1 + vk * dim2) with
      | .error e => .error e
      | .ok fvk => .ok (calcint q vk fq fvk)

/-- Lines 63-68: `while(s<=z[offset2+k*dim2]){ k=k-1; s=calcint(...); }`, returning `(k, s)`. -/
def popLoop (dim2 offset1 offset2 : Int) (f z : List Val) (v : List Int) (q : Int) :
    Nat → Int → Val → Except Err (Int × Val)
  | 0, _, _ => .error .fuel
  | n + 1, k, s =>
    match rd .z z (offset2 + k * dim2) with
    | .error e => .error e
    | .ok zk =>
      if Val.le s zk then
        match intersect dim2 offset1 f v q (k - 1) with
        | .error e => .error e
        | .ok s1 => popLoop dim2 offset1 offset2 f z v q n (k - 1) s1
      else .ok (k, s)

/-- Lines 59-72: the body of the build sweep at position `q`, on the state `(k, z, v)`. -/
def buildStep (dim2 offset1 offset2 : Int) (f : List Val) (q : Int)
    (st : Int × List Val × List Int) : Except Err (Int × List Val × List Int) :=
  match intersect dim2 offset1 f st.2.2 q st.1 with
  | .error e => .error e
  | .ok s0 =>
    match popLoop dim2 offset1 offset2 f st.2.1 st.2.2 q (st.2.2.length + 1) st.1 s0 with
    | .error e => .error e
    | .ok (k1, s) =>
      let k := k1 + 1
      match wr .v st.2.2 (offset1 + k * dim2) q with
      | .error e => .error e
      | .ok v1 =>
        match wr .z st.2.1 (offset2 + k * dim2) s with
        | .error e => .error e
        | .ok z1 =>
          match wr .z z1 (offset2 + k * dim2 + dim2) verybig with
          | .error e => .error e
          | .ok z2 => .ok (k, z2, v1)

/-- Lines 54-73 with the loop stopped after `m` positions:
`k=0; z[offset2+0]=-verybig; z[offset2+dim2]=verybig; for(q=1; ...; q++) ...`,
returning the current `k` with the buffers. -/
def buildSweepTo (m : Nat) (dim2 offset1 offset2 : Int) (f z : List Val) (v : List Int) :
    Except Err (Int × List Val × List Int) :=
  match wr .z z (offset2 + 0) (Val.neg verybig) with
  | .error e => .error e
  | .ok z1 =>
    match wr .z z1 (offset2 + dim2) verybig with
    | .error e => .error e
    | .ok z2 => forLoop (buildStep dim2 offset1 offset2 f) m 1 (0, z2, v)

/-- Lines 54-73: the whole build sweep, `for(q=1;q<dim1;q++)`, returning the final `k` with
the buffers. -/
def buildSweep (dim1 dim2 offset1 offset2 : Int) (f z : List Val) (v : List Int) :
    Except Err (Int × List Val × List Int) :=
  buildSweepTo (dim1 - 1).toNat dim2 offset1 offset2 f z v

/-- Lines 78-80: `while(z[offset2+(k+1)*dim2]<q) { k=k+1; }`, returning `k`. -/
def cursorLoop (dim2 offset2 : Int) (z : List Val) (q : Int) : Nat → Int → Except Err Int
  | 0, _ => .error .fuel
  | n + 1, k =>
    match rd .z z (offset2 + (k + 1) * dim2) with
    | .error e => .error e
    | .ok zk => if Val.lt zk (Val.ofInt q) then cursorLoop dim2 offset2 z q n (k + 1) else .ok k

/-- Lines 78-83: the body of the evaluate sweep at position `q`, on the state
`(k, out, basins)`. -/
def evalStep (dim2 offset1 offset2 : Int) (f z : List Val) (v : List Int) (q : Int)
    (st : Int × List Val × List Int) : Except Err (Int × List Val × List Int) :=
  match cursorLoop dim2 offset2 z q (z.length + 1) st.1 with
  | .error e => .error e
  | .ok k =>
    match rd .v v (offset1 + k * dim2) with
    | .error e => .error e
    | .ok thisv =>
      match wr .basins st.2.2 (offset1 + q * dim2) thisv with
      | .error e => .error e
      | .ok basins1 =>
        match rd .f f (offset1 + thisv * dim2) with
        | .error e => .error e
        | .ok fv =>
          match wr .out st.2.1 (offset1 + q * dim2)
              (Val.add (Val.ofInt ((q - thisv) * (q - thisv))) fv) with
          | .error e => .error e
          | .ok out1 => .ok (k, out1, basins1)

/-- Lines 76-84: `k=0; for(q=0;q<dim1;q++) ...`, returning `(out, basins)`. -/
def evalSweep (dim1 dim2 offset1 offset2 : Int) (f z : List Val) (v : List Int)
    (out : List Val) (basins : List Int) : Except Err (List Val × List Int) :=
  match forLoop (evalStep dim2 offset1 offset2 f z v) (dim1 - 0).toNat 0 (0, out, basins) with
  | .error e => .error e
  | .ok (_, out1, basins1) => .ok (out1, basins1)

/-- Lines 43-73 for the row `(i0, i2)` with the build sweep stopped after `m` positions: the
offsets, the initialisation of `v` and `z`, and the first `m` positions of the build sweep;
returns the current stack index `k` with the buffers `z` and `v`. -/
def rowBuildUpTo (m : Nat) (dim1 dim2 : Int) (f : List Val) (i0 i2 : Int) (z : List Val)
    (v : List Int) : Except Err (Int × List Val × List Int) :=
  let offset1 := i0 * dim1 * dim2 + i2
  let offset2 := i0 * (dim1 + 1) * dim2 + i2
  match initVZ dim1 dim2 offset1 offset2 z v with
  | .error e => .error e
  | .ok (z1, v1) => buildSweepTo m dim2 offset1 offset2 f z1 v1

/-- Lines 43-73 for the row `(i0, i2)`: the offsets, the initialisation of `v` and `z`, and
the build sweep; returns the final stack index `k` with the buffers `z` and `v`. -/
def rowBuild (dim1 dim2 : Int) (f : List Val) (i0 i2 : Int) (z : List Val) (v : List Int) :
    Except Err (Int × List Val × List Int) :=
  rowBuildUpTo (dim1 - 1).toNat dim1 dim2 f i0 i2 z v

/-- Lines 43-84: the body of the two outer loops for the row `(i0, i2)`. -/
def rowBody (dim1 dim2 : Int) (f : List Val) (i0 i2 : Int) (b : Bufs) : Except Err Bufs :=
  let offset1 := i0 * dim1 * dim2 + i2
  let offset2 := i0 * (dim1 + 1) * dim2 + i2
  match rowBuild dim1 dim2 f i0 i2 b.z b.v with
  | .error e => .error e
  | .ok (_, z1, v1) =>
    match evalSweep dim1 dim2 offset1 offset2 f z1 v1 b.out b.basins with
    | .error e => .error e
    | .ok (out1, basins1) => .ok ⟨out1, z1, v1, basins1⟩

/-- `BasinFinderFunctor<CPUDevice, T, S>::operator()`: the two outer loops over `i0` and `i2`. -/
def BasinFinderFunctor (dim0 dim1 dim2 : Int) (f : List Val) (b : Bufs) : Except Err Bufs :=
  forLoop (fun i0 b0 => forLoop (fun i2 b1 => rowBody dim1 dim2 f i0 i2 b1) (dim2 - 0).toNat 0 b0)
    (dim0 - 0).toNat 0 b

end BasinFinder

/-! ## Row-level reference model

The same two sweeps on one row held as functions of the row slot, with natural-number
indices and no bounds checks. The functor is shown below to compute exactly this on every
row; the row model is only a vehicle for the proofs. -/

namespace BasinFinder

/-- Abscissa at which the parabolas rooted at `q` and `p` meet, for a row of finite samples. -/
def sep (fr : Nat → ℚ) (q p : Nat) : ℚ :=
  ((fr q + (q : ℚ) * q) - (fr p + (p : ℚ) * p)) / (2 * (q : ℚ) - 2 * p)

/-- Pop loop of the row model from stack index `k`: the index and abscissa it ends with. -/
def rowPop (fr : Nat → ℚ) (q : Nat) (z : Nat → Val) (v : Nat → Nat) : Nat → Nat × ℚ
  | 0 => (0, sep fr q (v 0))
  | k + 1 =>
    if Val.le (Val.fin (sep fr q (v (k + 1)))) (z (k + 1)) then rowPop fr q z v k
    else (k + 1, sep fr q (v (k + 1)))

/-- Stack of the row model: index `k`, breakpoints `z`, apexes `v`. -/
structure RowSt where
  k : Nat
  z : Nat → Val
  v : Nat → Nat

/-- One position of the build sweep in the row model. -/
def rowStep (fr : Nat → ℚ) (q : Nat) (st : RowSt) : RowSt :=
  let r := rowPop fr q st.z st.v st.k
  { k := r.1 + 1
    z := Function.update (Function.update st.z (r.1 + 1) (Val.fin r.2)) (r.1 + 2) Val.pinf
    v := Function.update st.v (r.1 + 1) q }

/-- State of the row model before the build sweep. -/
def rowInit : RowSt :=
  { k := 0
    z := Function.update (Function.update (fun _ => Val.fin 0) 0 Val.ninf) 1 Val.pinf
    v := fun _ => 0 }

/-- State of the row model after positions `1..q` of the build sweep. -/
def rowStackAt (fr : Nat → ℚ) : Nat → RowSt
  | 0 => rowInit
  | q + 1 => rowStep fr (q + 1) (rowStackAt fr q)

/-- Cursor loop of the row model, with `m` slots left before the last apex. -/
def rowCursor (z : Nat → Val) (q : Nat) : Nat → Nat → Nat
  | 0, k => k
  | m + 1, k => if Val.lt (z (k + 1)) (Val.fin (q : ℚ)) then rowCursor z q m (k + 1) else k

/-- Cursor of the row model after position `q` of the evaluate sweep; `st` is the built stack. -/
def rowCur (st : RowSt) : Nat → Nat
  | 0 => rowCursor st.z 0 st.k 0
  | q + 1 => rowCursor st.z (q + 1) (st.k - rowCur st q) (rowCur st q)

/-- Basin of position `q` in the row model. -/
def rowBasin (st : RowSt) (q : Nat) : Nat := st.v (rowCur st q)

/-- Output at position `q` in the row model. -/
def rowOut (fr : Nat → ℚ) (st : RowSt) (q : Nat) : ℚ :=
  ((q : ℚ) - (rowBasin st q : ℚ)) * ((q : ℚ) - (rowBasin st q : ℚ)) + fr (rowBasin st q)

/-- Value at `x` of the parabola rooted at `p`. -/
def par {K : Type} [LinearOrderedField K] (fr : Nat → ℚ) (p : Nat) (x : K) : K :=
  (x - (p : K)) ^ 2 + ((fr p : ℚ) : K)

/-- The breakpoint `z` lies at or left of `x`. -/
def Val.leK {K : Type} [LinearOrderedField K] : Val → K → Prop
  | Val.ninf, _ => True
  | Val.fin a, x => ((a : ℚ) : K) ≤ x
  | _, _ => False

/-- The breakpoint `z` lies at or right of `x`. -/
def Val.geK {K : Type} [LinearOrderedField K] : Val → K → Prop
  | Val.pinf, _ => True
  | Val.fin a, x => x ≤ ((a : ℚ) : K)
  | _, _ => False

/-- Invariant of the pop loop while position `q` is being inserted and the stack index is `k`. -/
structure PopInv (K : Type) [LinearOrderedField K] (fr : Nat → ℚ) (q k : Nat)
    (z : Nat → Val) (v : Nat → Nat) : Prop where
  v0 : v 0 = 0
  vlt : ∀ j, j ≤ k → v j < q
  vmono : ∀ i j, i < j → j ≤ k → v i < v j
  z0 : z 0 = Val.ninf
  zfin : ∀ j, 1 ≤ j → j ≤ k → ∃ a, z j = Val.fin a
  zmono : ∀ j, j ≤ k → Val.lt (z j) (z (j + 1)) = true
  env : ∀ j, j ≤ k → ∀ x : K, Val.leK (z j) x → Val.geK (z (j + 1)) x →
    ∀ p, p < q → par fr (v j) x ≤ par fr p x
  above : ∀ x : K, Val.leK (z (k + 1)) x → ∀ p, p < q → par fr q x ≤ par fr p x

/-- Invariant of the build sweep after position `q`. -/
structure BuildInv (K : Type) [LinearOrderedField K] (fr : Nat → ℚ) (q : Nat) (st : RowSt) :
    Prop where
  v0 : st.v 0 = 0
  vtop : st.v st.k = q
  vmono : ∀ i j, i < j → j ≤ st.k → st.v i < st.v j
  z0 : st.z 0 = Val.ninf
  zfin : ∀ j, 1 ≤ j → j ≤ st.k → ∃ a, st.z j = Val.fin a
  ztop : st.z (st.k + 1) = Val.pinf
  zmono : ∀ j, j ≤ st.k → Val.lt (st.z j) (st.z (j + 1)) = true
  env : ∀ j, j ≤ st.k → ∀ x : K, Val.leK (st.z j) x → Val.geK (st.z (j + 1)) x →
    ∀ p, p ≤ q → par fr (st.v j) x ≤ par fr p x

end BasinFinder

/-! ## Rows inside the flat buffers -/

namespace BasinFinder

/-- The slots `off + j*d`, `j < n`, lie inside the buffer `l`. -/
def InRow {α : Type} (l : List α) (off d n : Nat) : Prop :=
  ∀ j, j < n → off + j * d < l.length

/-- The slots `off + j*d`, `j < n`, of the buffer `l` hold `r 0, ..., r (n-1)`. -/
def RowIs {α : Type} (l : List α) (off d n : Nat) (r : Nat → α) : Prop :=
  ∀ j, j < n → l[off + j * d]? = some (r j)

/-- The buffer `l` has the length of `l0` and agrees with it off the slots `off + j*d`, `j < n`. -/
def SameOutside {α : Type} (l0 l : List α) (off d n : Nat) : Prop :=
  l.length = l0.length ∧ ∀ i, (∀ j, j < n → i ≠ off + j * d) → l[i]? = l0[i]?

end BasinFinder

namespace BasinFinder

/-- The state `(k, z, v)` of the build sweep of the row at offsets `off1`, `off2` with stride `d`
holds, after position `q`, the stack of the row model; off the row the buffers are as in
`z0`, `v0`. -/
structure BuildRel (fr : Nat → ℚ) (off1 off2 d n : Nat) (z0 : List Val) (v0 : List Int)
    (q : Nat) (S : Int × List Val × List Int) : Prop where
  k_eq : S.1 = ((rowStackAt fr q).k : Int)
  z_row : RowIs S.2.1 off2 d (n + 1) (rowStackAt fr q).z
  z_out : SameOutside z0 S.2.1 off2 d (n + 1)
  v_row : RowIs S.2.2 off1 d n (fun j => (((rowStackAt fr q).v j : Nat) : Int))
  v_out : SameOutside v0 S.2.2 off1 d n

end BasinFinder

namespace BasinFinder

/-- Cursor of the row model on entry to position `q` of the evaluate sweep. -/
def rowCurPrev (st : RowSt) : Nat → Nat
  | 0 => 0
  | q + 1 => rowCur st q

/-- The state `(k, out, basins)` of the evaluate sweep of a row holds, after `q` positions,
the cursor and the first `q` results of the row model; off the row the buffers are as in
`out0`, `basins0`. -/
structure EvalRel (fr : Nat → ℚ) (st : RowSt) (off1 d n : Nat) (out0 : List Val)
    (basins0 : List Int) (q : Nat) (S : Int × List Val × List Int) : Prop where
  k_eq : S.1 = ((rowCurPrev st q : Nat) : Int)
  out_row : RowIs S.2.1 off1 d q (fun j => Val.fin (rowOut fr st j))
  out_out : SameOutside out0 S.2.1 off1 d n
  basins_row : RowIs S.2.2 off1 d q (fun j => ((rowBasin st j : Nat) : Int))
  basins_out : SameOutside basins0 S.2.2 off1 d n

end BasinFinder

/-! ## Shapes, samples and rows of a run -/

namespace BasinFinder

/-- The sample in slot `i` of the input buffer, as a number. -/
def sample (f : List Val) (i : Nat) : ℚ :=
  match f[i]? with
  | some (Val.fin x) => x
  | _ => 0

/-- The samples of the row `(i0, i2)` of an input buffer with row length `n1` and inner
dimension `n2`. -/
def frow (f : List Val) (n1 n2 i0 i2 : Nat) : Nat → ℚ :=
  fun j => sample f (i0 * n1 * n2 + i2 + j * n2)

/-- Every sample of the input buffer is a finite number. -/
def AllFinite (f : List Val) : Prop := ∀ x, x ∈ f → ∃ a, x = Val.fin a

/-- The four output buffers have the sizes of the shapes `[n0,n1,n2]` (for `out`, `v`,
`basins`) and `[n0,n1+1,n2]` (for `z`). -/
structure Shaped (n0 n1 n2 : Nat) (b : Bufs) : Prop where
  out_len : b.out.length = n0 * n1 * n2
  z_len : b.z.length = n0 * (n1 + 1) * n2
  v_len : b.v.length = n0 * n1 * n2
  basins_len : b.basins.length = n0 * n1 * n2

/-- The slots of the row `(i0, i2)` of the four buffers hold what the row model computes
from the row samples `fr`. -/
structure RowDone (fr : Nat → ℚ) (n1 n2 i0 i2 : Nat) (b : Bufs) : Prop where
  z_row : RowIs b.z (i0 * (n1 + 1) * n2 + i2) n2 (n1 + 1) (rowStackAt fr (n1 - 1)).z
  v_row : RowIs b.v (i0 * n1 * n2 + i2) n2 n1 (fun j => (((rowStackAt fr (n1 - 1)).v j : Nat) : Int))
  out_row : RowIs b.out (i0 * n1 * n2 + i2) n2 n1
    (fun j => Val.fin (rowOut fr (rowStackAt fr (n1 - 1)) j))
  basins_row : RowIs b.basins (i0 * n1 * n2 + i2) n2 n1
    (fun j => ((rowBasin (rowStackAt fr (n1 - 1)) j : Nat) : Int))

/-- The buffers `b1` agree with `b` off the row `(i0, i2)`. -/
structure Frame (n1 n2 i0 i2 : Nat) (b b1 : Bufs) : Prop where
  z_out : SameOutside b.z b1.z (i0 * (n1 + 1) * n2 + i2) n2 (n1 + 1)
  v_out : SameOutside b.v b1.v (i0 * n1 * n2 + i2) n2 n1
  out_out : SameOutside b.out b1.out (i0 * n1 * n2 + i2) n2 n1
  basins_out : SameOutside b.basins b1.basins (i0 * n1 * n2 + i2) n2 n1

end BasinFinder

/-! ## Notions used to state the properties -/

namespace BasinFinder

/-- The build sweep of the row `(i0, i2)` ends with stack index `kfin`, and in that row's
slots the buffers `z`, `v` hold what the build sweep leaves there, whatever the buffers held
when the row was started. -/
def BuildEndsWith (f : List Val) (n0 n1 n2 i0 i2 kfin : Nat) (z : List Val) (v : List Int) :
    Prop :=
  ∀ (z0 : List Val) (v0 : List Int), z0.length = n0 * (n1 + 1) * n2 → v0.length = n0 * n1 * n2 →
    ∃ z1 v1, rowBuild (n1 : Int) (n2 : Int) f (i0 : Int) (i2 : Int) z0 v0 =
        .ok ((kfin : Int), z1, v1) ∧
      (∀ j, j < n1 + 1 →
        z1[i0 * (n1 + 1) * n2 + i2 + j * n2]? = z[i0 * (n1 + 1) * n2 + i2 + j * n2]?) ∧
      (∀ j, j < n1 → v1[i0 * n1 * n2 + i2 + j * n2]? = v[i0 * n1 * n2 + i2 + j * n2]?)

end BasinFinder

/-! ## Concrete inputs -/

namespace BasinFinder

/-- An input buffer of shape `[1,3,1]`: the single row `3, 1, 2`. -/
def row312 : List Val := [Val.fin 3, Val.fin 1, Val.fin 2]

/-- An input buffer of shape `[1,2,1]`: the row `0, 0`. -/
def row00 : List Val := [Val.fin 0, Val.fin 0]

/-- Output buffers for the shape `[1,2,1]` with arbitrary prior contents. -/
def junk2 : Bufs := ⟨[Val.nan, Val.nan], [Val.nan, Val.nan, Val.nan], [7, 7], [7, 7]⟩

/-- An input buffer of shape `[1,5,1]`: the row `10, 0, 10, 10, 10`. -/
def rowDominant : List Val := [Val.fin 10, Val.fin 0, Val.fin 10, Val.fin 10, Val.fin 10]

/-- Output buffers for the shape `[1,5,1]` with arbitrary prior contents. -/
def junk5 : Bufs :=
  ⟨[Val.nan, Val.nan, Val.nan, Val.nan, Val.nan],
    [Val.nan, Val.nan, Val.nan, Val.nan, Val.nan, Val.nan], [7, 7, 7, 7, 7], [7, 7, 7, 7, 7]⟩

/-- Output buffers for the shape `[1,3,1]` with arbitrary prior contents. -/
def junk3 : Bufs :=
  ⟨[Val.nan, Val.nan, Val.nan], [Val.nan, Val.nan, Val.nan, Val.nan], [7, 7, 7], [7, 7, 7]⟩

end BasinFinder

/-! ## Further notions: partial evaluate sweep, concrete rows -/

namespace BasinFinder

/-- Lines 76-84 with the loop stopped after `m` positions: `k=0; for(q=0; ...; q++) ...`,
returning the current cursor `k` with the buffers `out` and `basins`. -/
def evalSweepTo (m : Nat) (dim2 offset1 offset2 : Int) (f z : List Val) (v : List Int)
    (out : List Val) (basins : List Int) : Except Err (Int × List Val × List Int) :=
  forLoop (evalStep dim2 offset1 offset2 f z v) m 0 (0, out, basins)

/-- An input buffer of shape `[1,3,1]`: the row `0, 1, 0`, whose three parabolas meet at
`x = 1`. -/
def row010 : List Val := [Val.fin 0, Val.fin 1, Val.fin 0]

/-- An input buffer of shape `[1,2,1]` with an infinite sample: the row `+inf, 0`. -/
def rowInf : List Val := [Val.pinf, Val.fin 0]

/-! ## The algorithm with the pop condition as a parameter

The functor's code with the comparison of line 63 passed in as `cond`: `cond = Val.le` is the
functor itself, `cond = Val.lt` is the otherwise identical algorithm with the strict pop
condition `s < z[k]`. -/

/-- Lines 63-68 with the pop condition `cond s z[offset2+k*dim2]`. -/
def popLoopWith (cond : Val → Val → Bool) (dim2 offset1 offset2 : Int) (f z : List Val)
    (v : List Int) (q : Int) : Nat → Int → Val → Except Err (Int × Val)
  | 0, _, _ => .error .fuel
  | n + 1, k, s =>
    match rd .z z (offset2 + k * dim2) with
    | .error e => .error e
    | .ok zk =>
      if cond s zk then
        match intersect dim2 offset1 f v q (k - 1) with
        | .error e => .error e
        | .ok s1 => popLoopWith cond dim2 offset1 offset2 f z v q n (k - 1) s1
      else .ok (k, s)

/-- Lines 59-72 with the pop condition `cond`. -/
def buildStepWith (cond : Val → Val → Bool) (dim2 offset1 offset2 : Int) (f : List Val)
    (q : Int) (st : Int × List Val × List Int) : Except Err (Int × List Val × List Int) :=
  match intersect dim2 offset1 f st.2.2 q st.1 with
  | .error e => .error e
  | .ok s0 =>
    match popLoopWith cond dim2 offset1 offset2 f st.2.1 st.2.2 q (st.2.2.length + 1) st.1
        s0 with
    | .error e => .error e
    | .ok (k1, s) =>
      let k := k1 + 1
      match wr .v st.2.2 (offset1 + k * dim2) q with
      | .error e => .error e
      | .ok v1 =>
        match wr .z st.2.1 (offset2 + k * dim2) s with
        | .error e => .error e
        | .ok z1 =>
          match wr .z z1 (offset2 + k * dim2 + dim2) verybig with
          | .error e => .error e
          | .ok z2 => .ok (k, z2, v1)

/-- Lines 54-73 with the pop condition `cond`, stopped after `m` positions. -/
def buildSweepToWith (cond : Val → Val → Bool) (m : Nat) (dim2 offset1 offset2 : Int)
    (f z : List Val) (v : List Int) : Except Err (Int × List Val × List Int) :=
  match wr .z z (offset2 + 0) (Val.neg verybig) with
  | .error e => .error e
  | .ok z1 =>
    match wr .z z1 (offset2 + dim2) verybig with
    | .error e => .error e
    | .ok z2 => forLoop (buildStepWith cond dim2 offset1 offset2 f) m 1 (0, z2, v)

/-- Lines 43-73 with the pop condition `cond`, stopped after `m` build positions. -/
def rowBuildUpToWith (cond : Val → Val → Bool) (m : Nat) (dim1 dim2 : Int) (f : List Val)
    (i0 i2 : Int) (z : List Val) (v : List Int) : Except Err (Int × List Val × List Int) :=
  let offset1 := i0 * dim1 * dim2 + i2
  let offset2 := i0 * (dim1 + 1) * dim2 + i2
  match initVZ dim1 dim2 offset1 offset2 z v with
  | .error e => .error e
  | .ok (z1, v1) => buildSweepToWith cond m dim2 offset1 offset2 f z1 v1

/-- Lines 43-73 with the pop condition `cond`. -/
def rowBuildWith (cond : Val → Val → Bool) (dim1 dim2 : Int) (f : List Val) (i0 i2 : Int)
    (z : List Val) (v : List Int) : Except Err (Int × List Val × List Int) :=
  rowBuildUpToWith cond (dim1 - 1).toNat dim1 dim2 f i0 i2 z v

/-- Lines 43-84 with the pop condition `cond`. -/
def rowBodyWith (cond : Val → Val → Bool) (dim1 dim2 : Int) (f : List Val) (i0 i2 : Int)
    (b : Bufs) : Except Err Bufs :=
  let offset1 := i0 * dim1 * dim2 + i2
  let offset2 := i0 * (dim1 + 1) * dim2 + i2
  match rowBuildWith cond dim1 dim2 f i0 i2 b.z b.v with
  | .error e => .error e
  | .ok (_, z1, v1) =>
    match evalSweep dim1 dim2 offset1 offset2 f z1 v1 b.out b.basins with
    | .error e => .error e
    | .ok (out1, basins1) => .ok ⟨out1, z1, v1, basins1⟩

/-- The functor with the pop condition `cond`. -/
def BasinFinderWith (cond : Val → Val → Bool) (dim0 dim1 dim2 : Int) (f : List Val)
    (b : Bufs) : Except Err Bufs :=
  forLoop
    (fun i0 b0 =>
      forLoop (fun i2 b1 => rowBodyWith cond dim1 dim2 f i0 i2 b1) (dim2 - 0).toNat 0 b0)
    (dim0 - 0).toNat 0 b

/-- The otherwise identical algorithm whose pop condition is the strict `s < z[k]`. -/
def BasinFinderStrict (dim0 dim1 dim2 : Int) (f : List Val) (b : Bufs) : Except Err Bufs :=
  BasinFinderWith Val.lt dim0 dim1 dim2 f b

/-! ## Row-level reference model of the strict algorithm -/

/-- Pop loop of the row model with the strict pop condition. -/
def rowPopS (fr : Nat → ℚ) (q : Nat) (z : Nat → Val) (v : Nat → Nat) : Nat → Nat × ℚ
  | 0 => (0, sep fr q (v 0))
  | k + 1 =>
    if Val.lt (Val.fin (sep fr q (v (k + 1)))) (z (k + 1)) then rowPopS fr q z v k
    else (k + 1, sep fr q (v (k + 1)))

/-- One position of the build sweep in the strict row model. -/
def rowStepS (fr : Nat → ℚ) (q : Nat) (st : RowSt) : RowSt :=
  let r := rowPopS fr q st.z st.v st.k
  { k := r.1 + 1
    z := Function.update (Function.update st.z (r.1 + 1) (Val.fin r.2)) (r.1 + 2) Val.pinf
    v := Function.update st.v (r.1 + 1) q }

/-- State of the strict row model after positions `1..q` of the build sweep. -/
def rowStackS (fr : Nat → ℚ) : Nat → RowSt
  | 0 => rowInit
  | q + 1 => rowStepS fr (q + 1) (rowStackS fr q)

/-- Invariant of the strict pop loop; breakpoints are only non-decreasing. -/
structure PopInvW (K : Type) [LinearOrderedField K] (fr : Nat → ℚ) (q k : Nat)
    (z : Nat → Val) (v : Nat → Nat) : Prop where
  v0 : v 0 = 0
  vlt : ∀ j, j ≤ k → v j < q
  vmono : ∀ i j, i < j → j ≤ k → v i < v j
  z0 : z 0 = Val.ninf
  zfin : ∀ j, 1 ≤ j → j ≤ k → ∃ a, z j = Val.fin a
  zmono : ∀ j, j ≤ k → Val.le (z j) (z (j + 1)) = true
  env : ∀ j, j ≤ k → ∀ x : K, Val.leK (z j) x → Val.geK (z (j + 1)) x →
    ∀ p, p < q → par fr (v j) x ≤ par fr p x
  above : ∀ x : K, Val.leK (z (k + 1)) x → ∀ p, p < q → par fr q x ≤ par fr p x

/-- Invariant of the strict build sweep after position `q`. -/
structure BuildInvW (K : Type) [LinearOrderedField K] (fr : Nat → ℚ) (q : Nat) (st : RowSt) :
    Prop where
  v0 : st.v 0 = 0
  vtop : st.v st.k = q
  vmono : ∀ i j, i < j → j ≤ st.k → st.v i < st.v j
  z0 : st.z 0 = Val.ninf
  zfin : ∀ j, 1 ≤ j → j ≤ st.k → ∃ a, st.z j = Val.fin a
  ztop : st.z (st.k + 1) = Val.pinf
  zmono : ∀ j, j ≤ st.k → Val.le (st.z j) (st.z (j + 1)) = true
  env : ∀ j, j ≤ st.k → ∀ x : K, Val.leK (st.z j) x → Val.geK (st.z (j + 1)) x →
    ∀ p, p ≤ q → par fr (st.v j) x ≤ par fr p x

/-- The state `(k, z, v)` of the strict build sweep of a row holds, after position `q`, the
stack of the strict row model; off the row the buffers are as in `z0`, `v0`. -/
structure BuildRelS (fr : Nat → ℚ) (off1 off2 d n : Nat) (z0 : List Val) (v0 : List Int)
    (q : Nat) (S : Int × List Val × List Int) : Prop where
  k_eq : S.1 = ((rowStackS fr q).k : Int)
  z_row : RowIs S.2.1 off2 d (n + 1) (rowStackS fr q).z
  z_out : SameOutside z0 S.2.1 off2 d (n + 1)
  v_row : RowIs S.2.2 off1 d n (fun j => (((rowStackS fr q).v j : Nat) : Int))
  v_out : SameOutside v0 S.2.2 off1 d n

/-- The slots of the row `(i0, i2)` of the four buffers hold what the strict row model
computes from the row samples `fr`. -/
structure RowDoneS (fr : Nat → ℚ) (n1 n2 i0 i2 : Nat) (b : Bufs) : Prop where
  z_row : RowIs b.z (i0 * (n1 + 1) * n2 + i2) n2 (n1 + 1) (rowStackS fr (n1 - 1)).z
  v_row : RowIs b.v (i0 * n1 * n2 + i2) n2 n1 (fun j => (((rowStackS fr (n1 - 1)).v j : Nat) : Int))
  out_row : RowIs b.out (i0 * n1 * n2 + i2) n2 n1
    (fun j => Val.fin (rowOut fr (rowStackS fr (n1 - 1)) j))
  basins_row : RowIs b.basins (i0 * n1 * n2 + i2) n2 n1
    (fun j => ((rowBasin (rowStackS fr (n1 - 1)) j : Nat) : Int))

end BasinFinder

/-! ## Arithmetic of parabolas and breakpoints -/

namespace BasinFinder

theorem par_le_iff {K : Type} [LinearOrderedField K] (fr : Nat → ℚ) (p q : Nat) (hpq : p < q)
    (x : K) : par fr q x ≤ par fr p x ↔ ((sep fr q p : ℚ) : K) ≤ x := by
  have hd : (0 : K) < 2 * (q : K) - 2 * (p : K) := by
    have : (p : K) < (q : K) := by exact_mod_cast hpq
    linarith
  unfold sep par
  push_cast
  rw [div_le_iff₀ hd]
  constructor <;> intro h <;> nlinarith

theorem par_ge_iff {K : Type} [LinearOrderedField K] (fr : Nat → ℚ) (p q : Nat) (hpq : p < q)
    (x : K) : par fr p x ≤ par fr q x ↔ x ≤ ((sep fr q p : ℚ) : K) := by
  have hd : (0 : K) < 2 * (q : K) - 2 * (p : K) := by
    have : (p : K) < (q : K) := by exact_mod_cast hpq
    linarith
  unfold sep par
  push_cast
  rw [le_div_iff₀ hd]
  constructor <;> intro h <;> nlinarith

theorem Val.lt_of_le_false (s : ℚ) (z : Val) (hz : z = Val.ninf ∨ ∃ a, z = Val.fin a)
    (h : Val.le (Val.fin s) z = false) : Val.lt z (Val.fin s) = true := by
  rcases hz with rfl | ⟨a, rfl⟩
  · rfl
  · simp only [Val.le, Val.lt, decide_eq_false_iff_not, decide_eq_true_eq, not_le] at h ⊢
    exact h

theorem Val.geK_mono {K : Type} [LinearOrderedField K] {a b : Val} (h : Val.lt a b = true)
    (x : K) (ha : Val.geK a x) : Val.geK b x := by
  cases a <;> cases b <;> simp_all [Val.lt, Val.geK]
  exact le_trans ha (by exact_mod_cast h.le)

theorem Val.leK_mono {K : Type} [LinearOrderedField K] {a b : Val} (h : Val.lt a b = true)
    (x : K) (hb : Val.leK b x) : Val.leK a x := by
  cases a <;> cases b <;> simp_all [Val.lt, Val.leK]
  exact le_trans (by exact_mod_cast h.le) hb

theorem Val.geK_or_leK {K : Type} [LinearOrderedField K] {a b : Val} (h : Val.lt a b = true)
    (x : K) : Val.geK b x ∨ Val.leK b x := by
  cases a <;> cases b <;> simp_all [Val.lt, Val.geK, Val.leK] <;> exact le_total _ _

theorem Val.leK_of_lt_fin {K : Type} [LinearOrderedField K] {a : Val} {s : ℚ}
    (h : Val.lt a (Val.fin s) = true) (x : K) (hx : ((s : ℚ) : K) ≤ x) : Val.leK a x :=
  Val.leK_mono h x hx

/-- Monotone chain of breakpoints, read at a point on the right. -/
theorem geK_chain {K : Type} [LinearOrderedField K] (z : Nat → Val) (k : Nat)
    (zmono : ∀ j, j ≤ k → Val.lt (z j) (z (j + 1)) = true) (x : K) (i : Nat)
    (hi : Val.geK (z i) x) : ∀ j, i ≤ j → j ≤ k + 1 → Val.geK (z j) x := by
  intro j hij
  induction j, hij using Nat.le_induction with
  | base => intro _; exact hi
  | succ j hij ih =>
    intro hj
    exact Val.geK_mono (zmono j (by omega)) x (ih (by omega))

/-! ## The build sweep of the row model keeps the lower envelope -/

theorem PopInv.pop {K : Type} [LinearOrderedField K] {fr : Nat → ℚ} {q k : Nat}
    {z : Nat → Val} {v : Nat → Nat} (h : PopInv K fr q (k + 1) z v)
    (hs : Val.le (Val.fin (sep fr q (v (k + 1)))) (z (k + 1)) = true) : PopInv K fr q k z v where
  v0 := h.v0
  vlt := fun j hj => h.vlt j (by omega)
  vmono := fun i j hij hj => h.vmono i j hij (by omega)
  z0 := h.z0
  zfin := fun j h1 hj => h.zfin j h1 (by omega)
  zmono := fun j hj => h.zmono j (by omega)
  env := fun j hj => h.env j (by omega)
  above := by
    intro x hx p hp
    obtain ⟨a, ha⟩ := h.zfin (k + 1) (by omega) le_rfl
    rw [ha] at hs hx
    have hsa : sep fr q (v (k + 1)) ≤ a := by simpa [Val.le] using hs
    have hax : ((a : ℚ) : K) ≤ x := hx
    have hsx : ((sep fr q (v (k + 1)) : ℚ) : K) ≤ x :=
      le_trans (by exact_mod_cast hsa) hax
    have h1 : par fr q x ≤ par fr (v (k + 1)) x :=
      (par_le_iff fr _ _ (h.vlt (k + 1) le_rfl) x).2 hsx
    rcases Val.geK_or_leK (h.zmono (k + 1) le_rfl) x with hge | hle
    · exact le_trans h1 (h.env (k + 1) le_rfl x (by rw [ha]; exact hax) hge p hp)
    · exact h.above x hle p hp

theorem rowPop_spec {K : Type} [LinearOrderedField K] (fr : Nat → ℚ) (q : Nat) (z : Nat → Val)
    (v : Nat → Nat) : ∀ k, PopInv K fr q k z v →
      (rowPop fr q z v k).1 ≤ k ∧ PopInv K fr q (rowPop fr q z v k).1 z v ∧
      (rowPop fr q z v k).2 = sep fr q (v (rowPop fr q z v k).1) ∧
      Val.le (Val.fin (rowPop fr q z v k).2) (z (rowPop fr q z v k).1) = false := by
  intro k
  induction k with
  | zero =>
    intro h
    refine ⟨le_rfl, h, rfl, ?_⟩
    simp [rowPop, h.z0, Val.le]
  | succ k ih =>
    intro h
    by_cases hs : Val.le (Val.fin (sep fr q (v (k + 1)))) (z (k + 1)) = true
    · have hr : rowPop fr q z v (k + 1) = rowPop fr q z v k := by simp [rowPop, hs]
      rw [hr]
      obtain ⟨h1, h2, h3, h4⟩ := ih (h.pop hs)
      exact ⟨by omega, h2, h3, h4⟩
    · have hr : rowPop fr q z v (k + 1) = (k + 1, sep fr q (v (k + 1))) := by simp [rowPop, hs]
      rw [hr]
      exact ⟨le_rfl, h, rfl, by simpa using hs⟩

theorem BuildInv.toPop {K : Type} [LinearOrderedField K] {fr : Nat → ℚ} {q : Nat} {st : RowSt}
    (h : BuildInv K fr q st) : PopInv K fr (q + 1) st.k st.z st.v where
  v0 := h.v0
  vlt := by
    intro j hj
    rcases Nat.lt_or_eq_of_le hj with hlt | rfl
    · have := h.vmono j st.k hlt le_rfl
      rw [h.vtop] at this
      omega
    · rw [h.vtop]; omega
  vmono := h.vmono
  z0 := h.z0
  zfin := h.zfin
  zmono := h.zmono
  env := fun j hj x h1 h2 p hp => h.env j hj x h1 h2 p (by omega)
  above := by
    intro x hx
    rw [h.ztop] at hx
    exact absurd hx (by simp [Val.leK])

theorem BuildInv.init (K : Type) [LinearOrderedField K] (fr : Nat → ℚ) :
    BuildInv K fr 0 rowInit where
  v0 := rfl
  vtop := rfl
  vmono := by intro i j hij hj; simp [rowInit] at hj; omega
  z0 := by simp [rowInit]
  zfin := by intro j h1 hj; simp [rowInit] at hj; omega
  ztop := by simp [rowInit]
  zmono := by
    intro j hj
    simp [rowInit] at hj
    subst hj
    simp [rowInit, Val.lt]
  env := by
    intro j hj x _ _ p hp
    simp [rowInit] at hj
    subst hj
    have : p = 0 := by omega
    subst this
    simp [rowInit]

end BasinFinder

namespace BasinFinder

theorem PopInv.push {K : Type} [LinearOrderedField K] {fr : Nat → ℚ} {q k : Nat}
    {z : Nat → Val} {v : Nat → Nat} {s : ℚ} (h : PopInv K fr q k z v)
    (hs : s = sep fr q (v k)) (hle : Val.le (Val.fin s) (z k) = false) :
    BuildInv K fr q
      { k := k + 1
        z := Function.update (Function.update z (k + 1) (Val.fin s)) (k + 2) Val.pinf
        v := Function.update v (k + 1) q } := by
  have hzk : z k = Val.ninf ∨ ∃ a, z k = Val.fin a := by
    rcases Nat.eq_zero_or_pos k with rfl | hk
    · exact Or.inl h.z0
    · exact Or.inr (h.zfin k hk le_rfl)
  have hlt : Val.lt (z k) (Val.fin s) = true := Val.lt_of_le_false s (z k) hzk hle
  have zold : ∀ j, j ≤ k →
      Function.update (Function.update z (k + 1) (Val.fin s)) (k + 2) Val.pinf j = z j := by
    intro j hj
    rw [Function.update_noteq (by omega), Function.update_noteq (by omega)]
  have znew : Function.update (Function.update z (k + 1) (Val.fin s)) (k + 2) Val.pinf (k + 1)
      = Val.fin s := by
    rw [Function.update_noteq (by omega), Function.update_same]
  have vold : ∀ j, j ≤ k → Function.update v (k + 1) q j = v j := by
    intro j hj
    rw [Function.update_noteq (by omega)]
  have hqk : ∀ x : K, x ≤ ((s : ℚ) : K) → par fr (v k) x ≤ par fr q x := by
    intro x hx
    exact (par_ge_iff fr _ _ (h.vlt k le_rfl) x).2 (by rw [← hs]; exact hx)
  refine
    { v0 := ?_, vtop := ?_, vmono := ?_, z0 := ?_, zfin := ?_, ztop := ?_, zmono := ?_, env := ?_ }
  · show Function.update v (k + 1) q 0 = 0
    rw [vold 0 (by omega)]; exact h.v0
  · show Function.update v (k + 1) q (k + 1) = q
    exact Function.update_same _ _ _
  · intro i j hij hj
    show Function.update v (k + 1) q i < Function.update v (k + 1) q j
    have hj' : j ≤ k + 1 := hj
    rw [vold i (by omega)]
    rcases Nat.lt_or_eq_of_le hj' with hjk | rfl
    · rw [vold j (by omega)]; exact h.vmono i j hij (by omega)
    · rw [Function.update_same]; exact h.vlt i (by omega)
  · show Function.update (Function.update z (k + 1) (Val.fin s)) (k + 2) Val.pinf 0 = Val.ninf
    rw [zold 0 (by omega)]; exact h.z0
  · intro j h1 hj
    have hj' : j ≤ k + 1 := hj
    show ∃ a, Function.update (Function.update z (k + 1) (Val.fin s)) (k + 2) Val.pinf j = Val.fin a
    rcases Nat.lt_or_eq_of_le hj' with hjk | rfl
    · rw [zold j (by omega)]; exact h.zfin j h1 (by omega)
    · exact ⟨s, znew⟩
  · show Function.update (Function.update z (k + 1) (Val.fin s)) (k + 2) Val.pinf (k + 1 + 1)
      = Val.pinf
    exact Function.update_same _ _ _
  · intro j hj
    have hj' : j ≤ k + 1 := hj
    show Val.lt (Function.update (Function.update z (k + 1) (Val.fin s)) (k + 2) Val.pinf j)
      (Function.update (Function.update z (k + 1) (Val.fin s)) (k + 2) Val.pinf (j + 1)) = true
    rcases Nat.lt_or_eq_of_le hj' with hjk | rfl
    · rw [zold j (by omega)]
      rcases Nat.lt_or_eq_of_le (Nat.lt_succ_iff.mp hjk) with hjk' | rfl
      · rw [zold (j + 1) (by omega)]; exact h.zmono j (by omega)
      · rw [znew]; exact hlt
    · rw [znew, Function.update_same]; rfl
  · intro j hj x hlo hhi p hp
    have hj' : j ≤ k + 1 := hj
    change Val.leK (Function.update (Function.update z (k + 1) (Val.fin s)) (k + 2) Val.pinf j) x
      at hlo
    change Val.geK
      (Function.update (Function.update z (k + 1) (Val.fin s)) (k + 2) Val.pinf (j + 1)) x at hhi
    show par fr (Function.update v (k + 1) q j) x ≤ par fr p x
    rcases Nat.lt_or_eq_of_le hj' with hjk | rfl
    · -- an old piece
      have hjk' : j ≤ k := by omega
      rw [zold j hjk'] at hlo
      rw [vold j hjk']
      have hxs : x ≤ ((s : ℚ) : K) := by
        rcases Nat.lt_or_eq_of_le hjk' with hlt' | rfl
        · rw [zold (j + 1) (by omega)] at hhi
          have hk : Val.geK (z k) x := geK_chain z k h.zmono x (j + 1) hhi k (by omega) (by omega)
          have := Val.geK_mono hlt x hk
          exact this
        · rw [znew] at hhi; exact hhi
      have hvq : par fr (v k) x ≤ par fr q x := hqk x hxs
      -- the old piece is minimal among `p < q` wherever it was active
      have hold : ∀ p', p' < q → par fr (v j) x ≤ par fr p' x := by
        intro p' hp'
        rcases Nat.lt_or_eq_of_le hjk' with hlt' | rfl
        · rw [zold (j + 1) (by omega)] at hhi
          exact h.env j hjk' x hlo hhi p' hp'
        · rcases Val.geK_or_leK (h.zmono j le_rfl) x with hge | hle'
          · exact h.env j le_rfl x hlo hge p' hp'
          · exact le_trans hvq (h.above x hle' p' hp')
      rcases Nat.lt_or_eq_of_le hp with hpq | rfl
      · exact hold p hpq
      · rcases Nat.lt_or_eq_of_le hjk' with hlt' | rfl
        · exact le_trans (hold (v k) (h.vlt k le_rfl)) hvq
        · exact hvq
    · -- the new piece
      rw [znew] at hlo
      rw [Function.update_same]
      have hsx : ((s : ℚ) : K) ≤ x := hlo
      rcases Nat.lt_or_eq_of_le hp with hpq | rfl
      · have h1 : par fr q x ≤ par fr (v k) x :=
          (par_le_iff fr _ _ (h.vlt k le_rfl) x).2 (by rw [← hs]; exact hsx)
        rcases Val.geK_or_leK (h.zmono k le_rfl) x with hge | hle'
        · exact le_trans h1 (h.env k le_rfl x (Val.leK_of_lt_fin hlt x hsx) hge p hpq)
        · exact h.above x hle' p hpq
      · exact le_rfl

theorem buildInv (K : Type) [LinearOrderedField K] (fr : Nat → ℚ) :
    ∀ q, BuildInv K fr q (rowStackAt fr q) := by
  intro q
  induction q with
  | zero => exact BuildInv.init K fr
  | succ q ih =>
    obtain ⟨_, h2, h3, h4⟩ := rowPop_spec (K := K) fr (q + 1) (rowStackAt fr q).z
      (rowStackAt fr q).v (rowStackAt fr q).k ih.toPop
    exact h2.push h3 h4

end BasinFinder

/-! ## The evaluate sweep of the row model -/

namespace BasinFinder

theorem BuildInv.v_le {K : Type} [LinearOrderedField K] {fr : Nat → ℚ} {q : Nat} {st : RowSt}
    (h : BuildInv K fr q st) (j : Nat) (hj : j ≤ st.k) : st.v j ≤ q := by
  have := h.toPop.vlt j hj
  omega

theorem BuildInv.k_le {K : Type} [LinearOrderedField K] {fr : Nat → ℚ} {q : Nat} {st : RowSt}
    (h : BuildInv K fr q st) : st.k ≤ q := by
  have hmono : ∀ j, j ≤ st.k → j ≤ st.v j := by
    intro j
    induction j with
    | zero => intro _; exact Nat.zero_le _
    | succ j ih =>
      intro hj
      have h1 := ih (by omega)
      have h2 := h.vmono j (j + 1) (by omega) hj
      omega
  have := hmono st.k le_rfl
  rw [h.vtop] at this
  exact this

/-- Every breakpoint of the active prefix is ordered against every point. -/
theorem BuildInv.z_cases {K : Type} [LinearOrderedField K] {fr : Nat → ℚ} {q : Nat} {st : RowSt}
    (h : BuildInv K fr q st) (j : Nat) (hj : j ≤ st.k) :
    (∃ a, st.z (j + 1) = Val.fin a) ∨ st.z (j + 1) = Val.pinf := by
  rcases Nat.lt_or_eq_of_le hj with hlt | rfl
  · exact Or.inl (h.zfin (j + 1) (by omega) (by omega))
  · exact Or.inr h.ztop

theorem Val.leK_up {K : Type} [LinearOrderedField K] {a : Val} {x y : K} (h : Val.leK a x)
    (hxy : x ≤ y) : Val.leK a y := by
  cases a <;> simp_all [Val.leK]
  exact le_trans h hxy

theorem rowCursor_spec {K : Type} [LinearOrderedField K] {fr : Nat → ℚ} {n : Nat} {st : RowSt}
    (h : BuildInv K fr n st) (q : Nat) : ∀ m k, k + m = st.k →
      Val.leK (st.z k) ((q : ℕ) : K) →
      k ≤ rowCursor st.z q m k ∧ rowCursor st.z q m k ≤ st.k ∧
      Val.leK (st.z (rowCursor st.z q m k)) ((q : ℕ) : K) ∧
      Val.geK (st.z (rowCursor st.z q m k + 1)) ((q : ℕ) : K) := by
  intro m
  induction m with
  | zero =>
    intro k hk hle
    have : k = st.k := by omega
    subst this
    refine ⟨le_rfl, le_rfl, hle, ?_⟩
    simp [rowCursor, h.ztop, Val.geK]
  | succ m ih =>
    intro k hk hle
    by_cases hlt : Val.lt (st.z (k + 1)) (Val.fin (q : ℚ)) = true
    · have hr : rowCursor st.z q (m + 1) k = rowCursor st.z q m (k + 1) := by
        simp [rowCursor, hlt]
      rw [hr]
      have hle' : Val.leK (st.z (k + 1)) ((q : ℕ) : K) := by
        apply Val.leK_of_lt_fin hlt
        simp
      obtain ⟨h1, h2, h3, h4⟩ := ih (k + 1) (by omega) hle'
      exact ⟨by omega, h2, h3, h4⟩
    · have hr : rowCursor st.z q (m + 1) k = k := by simp [rowCursor, hlt]
      rw [hr]
      refine ⟨le_rfl, by omega, hle, ?_⟩
      rcases h.z_cases k (by omega) with ⟨a, ha⟩ | hp
      · rw [ha] at hlt ⊢
        simp only [Val.lt, decide_eq_true_eq, not_lt] at hlt
        show ((q : ℕ) : K) ≤ ((a : ℚ) : K)
        exact_mod_cast hlt
      · rw [hp]; trivial

theorem rowCur_spec {K : Type} [LinearOrderedField K] {fr : Nat → ℚ} {n : Nat} {st : RowSt}
    (h : BuildInv K fr n st) : ∀ q,
      rowCur st q ≤ st.k ∧ Val.leK (st.z (rowCur st q)) ((q : ℕ) : K) ∧
      Val.geK (st.z (rowCur st q + 1)) ((q : ℕ) : K) := by
  intro q
  induction q with
  | zero =>
    have h0 : Val.leK (st.z 0) (((0 : ℕ) : ℕ) : K) := by rw [h.z0]; trivial
    obtain ⟨_, h2, h3, h4⟩ := rowCursor_spec h 0 st.k 0 (by omega) h0
    exact ⟨h2, h3, h4⟩
  | succ q ih =>
    obtain ⟨i1, i2, _⟩ := ih
    have h0 : Val.leK (st.z (rowCur st q)) (((q + 1 : ℕ) : ℕ) : K) :=
      Val.leK_up i2 (by push_cast; linarith)
    obtain ⟨_, h2, h3, h4⟩ :=
      rowCursor_spec h (q + 1) (st.k - rowCur st q) (rowCur st q) (by omega) h0
    exact ⟨h2, h3, h4⟩

theorem rowBasin_min {K : Type} [LinearOrderedField K] {fr : Nat → ℚ} {n : Nat} {st : RowSt}
    (h : BuildInv K fr n st) (q p : Nat) (hp : p ≤ n) :
    par fr (rowBasin st q) ((q : ℕ) : K) ≤ par fr p ((q : ℕ) : K) := by
  obtain ⟨h1, h2, h3⟩ := rowCur_spec h q
  exact h.env (rowCur st q) h1 _ h2 h3 p hp

theorem rowBasin_le {K : Type} [LinearOrderedField K] {fr : Nat → ℚ} {n : Nat} {st : RowSt}
    (h : BuildInv K fr n st) (q : Nat) : rowBasin st q ≤ n :=
  h.v_le _ (rowCur_spec h q).1

theorem rowOut_eq_par (fr : Nat → ℚ) (st : RowSt) (q : Nat) :
    rowOut fr st q = par fr (rowBasin st q) ((q : ℕ) : ℚ) := by
  simp only [rowOut, par, Rat.cast_id]
  ring

theorem rowOut_min {fr : Nat → ℚ} {n : Nat} {st : RowSt} (h : BuildInv ℚ fr n st) (q p : Nat)
    (hp : p ≤ n) : rowOut fr st q ≤ ((q : ℚ) - (p : ℚ)) ^ 2 + fr p := by
  have := rowBasin_min h q p hp
  rw [← rowOut_eq_par] at this
  simpa [par] using this

end BasinFinder

/-! ## Bounds-checked accesses on a row -/

namespace BasinFinder

theorem rd_ok {α : Type} (b : BufId) (l : List α) (i : Int) (m : Nat) (x : α)
    (hi : i = (m : Int)) (h : l[m]? = some x) : rd b l i = .ok x := by
  subst hi
  simp [rd, h]

theorem wr_ok {α : Type} (b : BufId) (l : List α) (i : Int) (m : Nat) (x : α)
    (hi : i = (m : Int)) (h : m < l.length) : wr b l i x = .ok (l.set m x) := by
  subst hi
  simp [wr, h]

theorem row_inj {off d j j' : Nat} (hd : 0 < d) (h : off + j * d = off + j' * d) : j = j' := by
  have : j * d = j' * d := by omega
  exact Nat.eq_of_mul_eq_mul_right hd this

theorem RowIs.inRow {α : Type} {l : List α} {off d n : Nat} {r : Nat → α}
    (h : RowIs l off d n r) : InRow l off d n := by
  intro j hj
  have := h j hj
  by_contra hc
  rw [List.getElem?_eq_none (by omega)] at this
  exact absurd this (by simp)

theorem RowIs.mono {α : Type} {l : List α} {off d n m : Nat} {r : Nat → α}
    (h : RowIs l off d n r) (hm : m ≤ n) : RowIs l off d m r :=
  fun j hj => h j (by omega)

theorem RowIs.congr {α : Type} {l : List α} {off d n : Nat} {r r' : Nat → α}
    (h : RowIs l off d n r) (he : ∀ j, j < n → r j = r' j) : RowIs l off d n r' :=
  fun j hj => by rw [← he j hj]; exact h j hj

theorem RowIs.extend {α : Type} {l : List α} {off d n : Nat} {r : Nat → α}
    (h : RowIs l off d n r) (hn : l[off + n * d]? = some (r n)) : RowIs l off d (n + 1) r := by
  intro j hj
  rcases Nat.lt_or_eq_of_le (Nat.lt_succ_iff.mp hj) with hlt | rfl
  · exact h j hlt
  · exact hn

theorem RowIs.set {α : Type} {l : List α} {off d n : Nat} {r : Nat → α} (hd : 0 < d)
    (h : RowIs l off d n r) (j : Nat) (hj : off + j * d < l.length) (x : α) :
    RowIs (l.set (off + j * d) x) off d n (Function.update r j x) := by
  intro j' hj'
  rw [List.getElem?_set]
  by_cases hjj : j = j'
  · subst hjj
    simp [hj]
  · have hne : off + j * d ≠ off + j' * d := fun he => hjj (row_inj hd he)
    rw [if_neg hne, Function.update_noteq (Ne.symm hjj)]
    exact h j' hj'

theorem SameOutside.refl {α : Type} (l : List α) (off d n : Nat) : SameOutside l l off d n :=
  ⟨rfl, fun _ _ => rfl⟩

theorem SameOutside.set_slot {α : Type} {l0 l : List α} {off d n : Nat}
    (h : SameOutside l0 l off d n) (j : Nat) (hj : j < n) (x : α) :
    SameOutside l0 (l.set (off + j * d) x) off d n := by
  refine ⟨by rw [List.length_set]; exact h.1, ?_⟩
  intro i hi
  rw [List.getElem?_set_ne (Ne.symm (hi j hj))]
  exact h.2 i hi

theorem SameOutside.keeps_inRow {α : Type} {l0 l : List α} {off d n m : Nat}
    (h : SameOutside l0 l off d n) (h0 : InRow l0 off d m) : InRow l off d m := by
  intro j hj
  rw [h.1]
  exact h0 j hj

/-- A checked write into a row slot succeeds and updates that slot only. -/
theorem row_wr {α : Type} {l0 l : List α} {off d n m : Nat} {r : Nat → α} (b : BufId)
    (hd : 0 < d) (hr : RowIs l off d m r) (hs : SameOutside l0 l off d n)
    (hin : InRow l off d n) (j : Nat) (hj : j < n) (i : Int)
    (hi : i = ((off + j * d : ℕ) : Int)) (x : α) :
    wr b l i x = .ok (l.set (off + j * d) x) ∧
      RowIs (l.set (off + j * d) x) off d m (Function.update r j x) ∧
      SameOutside l0 (l.set (off + j * d) x) off d n ∧
      InRow (l.set (off + j * d) x) off d n :=
  ⟨wr_ok b l i _ x hi (hin j hj), hr.set hd j (hin j hj) x, hs.set_slot j hj x,
    fun j' hj' => by rw [List.length_set]; exact hin j' hj'⟩

theorem row_rd {α : Type} {l : List α} {off d n : Nat} {r : Nat → α} (b : BufId)
    (hr : RowIs l off d n r) (j : Nat) (hj : j < n) (i : Int)
    (hi : i = ((off + j * d : ℕ) : Int)) : rd b l i = .ok (r j) :=
  rd_ok b l i _ _ hi (hr j hj)

/-! ## Loops -/

theorem forLoop_inv {σ : Type} (body : Int → σ → Except Err σ) (Inv : Nat → σ → Prop) :
    ∀ (n a : Nat),
      (∀ i s, a ≤ i → i < a + n → Inv i s → ∃ s1, body (i : Int) s = .ok s1 ∧ Inv (i + 1) s1) →
      ∀ s, Inv a s → ∃ s1, forLoop body n (a : Int) s = .ok s1 ∧ Inv (a + n) s1 := by
  intro n
  induction n with
  | zero =>
    intro a _ s hs
    exact ⟨s, rfl, hs⟩
  | succ n ih =>
    intro a hstep s hs
    obtain ⟨s1, h1, h2⟩ := hstep a s le_rfl (by omega) hs
    obtain ⟨s2, h3, h4⟩ := ih (a + 1) (fun i s hi1 hi2 => hstep i s (by omega) (by omega)) s1 h2
    refine ⟨s2, ?_, ?_⟩
    · simp only [forLoop, h1]
      have : ((a : Int) + 1) = ((a + 1 : ℕ) : Int) := by push_cast; rfl
      rw [this]; exact h3
    · have : a + (n + 1) = a + 1 + n := by omega
      rw [this]; exact h4

end BasinFinder

namespace BasinFinder

theorem RowIs.set_extend {α : Type} {l : List α} {off d i : Nat} {r : Nat → α} (hd : 0 < d)
    (h : RowIs l off d i r) (hi : off + i * d < l.length) :
    RowIs (l.set (off + i * d) (r i)) off d (i + 1) r := by
  apply RowIs.extend
  · have := h.set hd i hi (r i)
    rwa [Function.update_eq_self] at this
  · rw [List.getElem?_set]
    simp [hi]

theorem idx_cast (off j d : Nat) : (off : Int) + (j : Int) * (d : Int) = ((off + j * d : ℕ) : Int) := by
  push_cast; rfl

/-! ## Initialisation of a row (lines 47-51) -/

theorem initVZ_spec (n d off1 off2 : Nat) (hd : 0 < d) (z : List Val) (v : List Int)
    (hz : InRow z off2 d (n + 1)) (hv : InRow v off1 d n) :
    ∃ z1 v1, initVZ (n : Int) (d : Int) (off1 : Int) (off2 : Int) z v = .ok (z1, v1) ∧
      RowIs z1 off2 d (n + 1) (fun _ => Val.fin 0) ∧ SameOutside z z1 off2 d (n + 1) ∧
      RowIs v1 off1 d n (fun _ => (0 : Int)) ∧ SameOutside v v1 off1 d n := by
  have hloop := forLoop_inv
    (initStep (d : Int) (off1 : Int) (off2 : Int))
    (fun i s => RowIs s.1 off2 d i (fun _ => Val.fin 0) ∧ SameOutside z s.1 off2 d (n + 1) ∧
      RowIs s.2 off1 d i (fun _ => (0 : Int)) ∧ SameOutside v s.2 off1 d n)
    n 0
    (by
      rintro i ⟨zz, vv⟩ _ hi ⟨h1, h2, h3, h4⟩
      have hi' : i < n := by omega
      have hvin : InRow vv off1 d n := h4.keeps_inRow hv
      have hzin : InRow zz off2 d (n + 1) := h2.keeps_inRow hz
      have e1 := wr_ok .v vv ((off1 : Int) + (i : Int) * (d : Int)) _ 0 (idx_cast off1 i d)
        (hvin i hi')
      have e2 := wr_ok .z zz ((off2 : Int) + (i : Int) * (d : Int)) _ (Val.ofInt 0)
        (idx_cast off2 i d) (hzin i (by omega))
      refine ⟨(zz.set (off2 + i * d) (Val.fin 0), vv.set (off1 + i * d) 0), ?_, ?_, ?_, ?_, ?_⟩
      · simp only [initStep, e1, e2]
        simp [Val.ofInt]
      · exact RowIs.set_extend (r := fun _ => Val.fin 0) hd h1 (hzin i (by omega))
      · exact h2.set_slot i (by omega) _
      · exact RowIs.set_extend (r := fun _ => (0 : Int)) hd h3 (hvin i hi')
      · exact h4.set_slot i hi' _)
    (z, v)
    ⟨fun j hj => absurd hj (Nat.not_lt_zero j), SameOutside.refl _ _ _ _,
      fun j hj => absurd hj (Nat.not_lt_zero j), SameOutside.refl _ _ _ _⟩
  obtain ⟨⟨z1, v1⟩, hrun, h1, h2, h3, h4⟩ := hloop
  simp only [Nat.zero_add] at h1 h3
  have hzin : InRow z1 off2 d (n + 1) := h2.keeps_inRow hz
  have e3 := wr_ok .z z1 ((off2 : Int) + (n : Int) * (d : Int)) _ (Val.ofInt 0)
    (idx_cast off2 n d) (hzin n (by omega))
  refine ⟨z1.set (off2 + n * d) (Val.fin 0), v1, ?_, ?_, ?_, h3, h4⟩
  · unfold initVZ
    simp only [Nat.cast_zero] at hrun
    simp only [sub_zero, Int.toNat_ofNat]
    rw [hrun]
    simp only [e3]
    simp [Val.ofInt]
  · exact RowIs.set_extend (r := fun _ => Val.fin 0) hd h1 (hzin n (by omega))
  · exact h2.set_slot n (by omega) _

end BasinFinder

/-! ## The build sweep (lines 54-73) computes the row model -/

namespace BasinFinder

theorem calcint_fin (fr : Nat → ℚ) (q p : Nat) (h : p < q) :
    calcint (q : Int) (p : Int) (Val.fin (fr q)) (Val.fin (fr p)) = Val.fin (sep fr q p) := by
  have hne : ((2 * (q : Int) - 2 * (p : Int) : Int) : ℚ) ≠ 0 := by
    have : (p : ℚ) < (q : ℚ) := by exact_mod_cast h
    push_cast
    intro h0
    linarith
  simp only [calcint, Val.ofInt, Val.add, Val.sub, Val.neg, Val.div, if_neg hne]
  unfold sep
  push_cast
  congr 1
  ring

theorem intersect_spec (fr : Nat → ℚ) (f : List Val) (v : List Int) (off1 d n m : Nat)
    (vr : Nat → Nat) (hf : RowIs f off1 d n (fun j => Val.fin (fr j)))
    (hv : RowIs v off1 d m (fun j => ((vr j : Nat) : Int))) (q kn : Nat) (hq : q < n)
    (hk : kn < m) (hvk : vr kn < q) (k : Int) (hkk : k = (kn : Int)) :
    intersect (d : Int) (off1 : Int) f v (q : Int) k = .ok (Val.fin (sep fr q (vr kn))) := by
  subst hkk
  have e1 := row_rd .v hv kn hk _ (idx_cast off1 kn d)
  have e2 := row_rd .f hf q hq _ (idx_cast off1 q d)
  have e3 := row_rd .f hf (vr kn) (by omega) _ (idx_cast off1 (vr kn) d)
  simp only [intersect, e1, e2, e3, calcint_fin fr q (vr kn) hvk]

theorem popLoop_spec (fr : Nat → ℚ) (f z : List Val) (v : List Int) (off1 off2 d n : Nat)
    (zr : Nat → Val) (vr : Nat → Nat) (hf : RowIs f off1 d n (fun j => Val.fin (fr j)))
    (q : Nat) (hq : q < n) (hz0 : zr 0 = Val.ninf) :
    ∀ (kn fuel : Nat) (k : Int), k = (kn : Int) → kn < fuel → (∀ j, j ≤ kn → vr j < q) →
      RowIs z off2 d (kn + 1) zr → RowIs v off1 d (kn + 1) (fun j => ((vr j : Nat) : Int)) →
      popLoop (d : Int) (off1 : Int) (off2 : Int) f z v (q : Int) fuel k
          (Val.fin (sep fr q (vr kn))) =
        .ok (((rowPop fr q zr vr kn).1 : Int), Val.fin (rowPop fr q zr vr kn).2) := by
  intro kn
  induction kn with
  | zero =>
    intro fuel k hk hfuel _ hz _
    subst hk
    obtain ⟨fuel, rfl⟩ : ∃ m, fuel = m + 1 := ⟨fuel - 1, by omega⟩
    have e1 := row_rd .z hz 0 (by omega) _ (idx_cast off2 0 d)
    simp only [popLoop, e1, hz0, rowPop, Val.le]
    simp
  | succ kn ih =>
    intro fuel k hk hfuel hvlt hz hv
    subst hk
    obtain ⟨fuel, rfl⟩ : ∃ m, fuel = m + 1 := ⟨fuel - 1, by omega⟩
    have e1 := row_rd .z hz (kn + 1) (by omega) _ (idx_cast off2 (kn + 1) d)
    have hk1 : ((kn + 1 : ℕ) : Int) - 1 = (kn : Int) := by push_cast; ring
    have e2 := intersect_spec fr f v off1 d n (kn + 1 + 1) vr hf hv q kn hq (by omega)
      (hvlt kn (by omega)) _ hk1
    have e3 := ih fuel _ hk1 (by omega) (fun j hj => hvlt j (by omega)) (hz.mono (by omega))
      (hv.mono (by omega))
    by_cases hs : Val.le (Val.fin (sep fr q (vr (kn + 1)))) (zr (kn + 1)) = true
    · simp only [popLoop, e1, hs, if_true, e2, e3, rowPop]
    · simp only [popLoop, e1, hs, rowPop]
      simp

theorem cast_update (vr : Nat → Nat) (i x : Nat) (j : Nat) :
    Function.update (fun j => ((vr j : Nat) : Int)) i (x : Int) j =
      ((Function.update vr i x j : Nat) : Int) := by
  by_cases h : j = i
  · subst h; simp
  · simp [Function.update_noteq h]

theorem buildStep_spec (fr : Nat → ℚ) (f : List Val) (off1 off2 d n : Nat) (hd : 0 < d)
    (hf : RowIs f off1 d n (fun j => Val.fin (fr j))) (z0 : List Val) (v0 : List Int)
    (q : Nat) (hq : q + 1 < n) (S : Int × List Val × List Int)
    (hS : BuildRel fr off1 off2 d n z0 v0 q S) :
    ∃ S1, buildStep (d : Int) (off1 : Int) (off2 : Int) f ((q + 1 : ℕ) : Int) S = .ok S1 ∧
      BuildRel fr off1 off2 d n z0 v0 (q + 1) S1 := by
  obtain ⟨k, z, v⟩ := S
  obtain ⟨hk, hzr, hzo, hvr, hvo⟩ := hS
  simp only at hk hzr hzo hvr hvo
  have inv := buildInv ℚ fr q
  have hkq : (rowStackAt fr q).k ≤ q := inv.k_le
  have hpop := rowPop_spec (K := ℚ) fr (q + 1) (rowStackAt fr q).z (rowStackAt fr q).v
    (rowStackAt fr q).k inv.toPop
  obtain ⟨hk1, -, -, -⟩ := hpop
  have e1 := intersect_spec fr f v off1 d n n _ hf hvr (q + 1) (rowStackAt fr q).k hq (by omega)
    (inv.toPop.vlt _ le_rfl) k hk
  have hvlen : (rowStackAt fr q).k < v.length + 1 := by
    have := hvr.inRow (rowStackAt fr q).k (by omega)
    have h2 : (rowStackAt fr q).k ≤ (rowStackAt fr q).k * d := Nat.le_mul_of_pos_right _ hd
    omega
  have e2 := popLoop_spec fr f z v off1 off2 d n _ _ hf (q + 1) hq inv.z0 (rowStackAt fr q).k
    (v.length + 1) k hk hvlen (fun j hj => inv.toPop.vlt j hj) (hzr.mono (by omega))
    (hvr.mono (by omega))
  set r := rowPop fr (q + 1) (rowStackAt fr q).z (rowStackAt fr q).v (rowStackAt fr q).k with hr
  obtain ⟨w1, w2, w3, w4⟩ := row_wr .v hd hvr hvo hvr.inRow (r.1 + 1) (by omega)
    ((off1 : Int) + ((r.1 : Int) + 1) * (d : Int)) (by push_cast; ring) ((q + 1 : ℕ) : Int)
  obtain ⟨x1, x2, x3, x4⟩ := row_wr .z hd hzr hzo hzr.inRow (r.1 + 1) (by omega)
    ((off2 : Int) + ((r.1 : Int) + 1) * (d : Int)) (by push_cast; ring) (Val.fin r.2)
  obtain ⟨y1, y2, y3, -⟩ := row_wr .z hd x2 x3 x4 (r.1 + 2) (by omega)
    ((off2 : Int) + ((r.1 : Int) + 1) * (d : Int) + (d : Int)) (by push_cast; ring) verybig
  refine ⟨(((r.1 + 1 : ℕ) : Int),
    (z.set (off2 + (r.1 + 1) * d) (Val.fin r.2)).set (off2 + (r.1 + 2) * d) verybig,
    v.set (off1 + (r.1 + 1) * d) ((q + 1 : ℕ) : Int)), ?_, ?_⟩
  · simp only [buildStep, e1, e2, w1, x1, y1]
    simp
  · refine ⟨rfl, ?_, y3, ?_, w3⟩
    · exact y2
    · exact w2.congr (fun j _ => cast_update _ _ _ j)

end BasinFinder

namespace BasinFinder

theorem buildSweepTo_spec (fr : Nat → ℚ) (f : List Val) (off1 off2 d n m : Nat) (hd : 0 < d)
    (hn : 1 ≤ n) (hm : m ≤ n - 1) (hf : RowIs f off1 d n (fun j => Val.fin (fr j)))
    (z0 z : List Val) (v0 v : List Int) (hzr : RowIs z off2 d (n + 1) (fun _ => Val.fin 0))
    (hzo : SameOutside z0 z off2 d (n + 1)) (hvr : RowIs v off1 d n (fun _ => (0 : Int)))
    (hvo : SameOutside v0 v off1 d n) :
    ∃ S, buildSweepTo m (d : Int) (off1 : Int) (off2 : Int) f z v = .ok S ∧
      BuildRel fr off1 off2 d n z0 v0 m S := by
  obtain ⟨x1, x2, x3, x4⟩ := row_wr .z hd hzr hzo hzr.inRow 0 (by omega)
    ((off2 : Int) + 0) (by push_cast; ring) (Val.neg verybig)
  obtain ⟨y1, y2, y3, -⟩ := row_wr .z hd x2 x3 x4 1 (by omega)
    ((off2 : Int) + (d : Int)) (by push_cast; ring) verybig
  have hloop := forLoop_inv (buildStep (d : Int) (off1 : Int) (off2 : Int) f)
    (fun i S => BuildRel fr off1 off2 d n z0 v0 (i - 1) S) m 1
    (by
      intro i S hi1 hi2 hS
      obtain ⟨q, rfl⟩ : ∃ q, i = q + 1 := ⟨i - 1, by omega⟩
      exact buildStep_spec fr f off1 off2 d n hd hf z0 v0 q (by omega) S hS)
    (0, (z.set (off2 + 0 * d) (Val.neg verybig)).set (off2 + 1 * d) verybig, v)
    ⟨rfl, y2, y3, hvr, hvo⟩
  obtain ⟨S, hrun, hS⟩ := hloop
  refine ⟨S, ?_, ?_⟩
  · simp only [buildSweepTo, x1, y1]
    simpa using hrun
  · have : 1 + m - 1 = m := by omega
    rw [this] at hS
    exact hS

/-- Lines 43-73 on a row that lies inside the buffers, stopped after `m` positions: the run
succeeds, ends with the stack index of the row model and leaves the stack of the row model in
the row's slots. -/
theorem rowBuildUpTo_spec (fr : Nat → ℚ) (f : List Val) (n1 n2 i0 i2 m : Nat) (hd : 0 < n2)
    (hn : 1 ≤ n1) (hm : m ≤ n1 - 1)
    (hf : RowIs f (i0 * n1 * n2 + i2) n2 n1 (fun j => Val.fin (fr j)))
    (z : List Val) (v : List Int) (hz : InRow z (i0 * (n1 + 1) * n2 + i2) n2 (n1 + 1))
    (hv : InRow v (i0 * n1 * n2 + i2) n2 n1) :
    ∃ S, rowBuildUpTo m (n1 : Int) (n2 : Int) f (i0 : Int) (i2 : Int) z v = .ok S ∧
      BuildRel fr (i0 * n1 * n2 + i2) (i0 * (n1 + 1) * n2 + i2) n2 n1 z v m S := by
  have ho1 : (i0 : Int) * (n1 : Int) * (n2 : Int) + (i2 : Int) = ((i0 * n1 * n2 + i2 : ℕ) : Int) := by
    push_cast; rfl
  have ho2 : (i0 : Int) * ((n1 : Int) + 1) * (n2 : Int) + (i2 : Int) =
      ((i0 * (n1 + 1) * n2 + i2 : ℕ) : Int) := by
    push_cast; rfl
  obtain ⟨z1, v1, hinit, h1, h2, h3, h4⟩ :=
    initVZ_spec n1 n2 (i0 * n1 * n2 + i2) (i0 * (n1 + 1) * n2 + i2) hd z v hz hv
  obtain ⟨S, hrun, hS⟩ := buildSweepTo_spec fr f _ _ n2 n1 m hd hn hm hf z z1 v v1 h1 h2 h3 h4
  refine ⟨S, ?_, hS⟩
  simp only [rowBuildUpTo, ho1, ho2, hinit, hrun]

theorem rowBuild_spec (fr : Nat → ℚ) (f : List Val) (n1 n2 i0 i2 : Nat) (hd : 0 < n2)
    (hn : 1 ≤ n1) (hf : RowIs f (i0 * n1 * n2 + i2) n2 n1 (fun j => Val.fin (fr j)))
    (z : List Val) (v : List Int) (hz : InRow z (i0 * (n1 + 1) * n2 + i2) n2 (n1 + 1))
    (hv : InRow v (i0 * n1 * n2 + i2) n2 n1) :
    ∃ S, rowBuild (n1 : Int) (n2 : Int) f (i0 : Int) (i2 : Int) z v = .ok S ∧
      BuildRel fr (i0 * n1 * n2 + i2) (i0 * (n1 + 1) * n2 + i2) n2 n1 z v (n1 - 1) S := by
  have hcnt : ((n1 : Int) - 1).toNat = n1 - 1 := by omega
  unfold rowBuild
  rw [hcnt]
  exact rowBuildUpTo_spec fr f n1 n2 i0 i2 (n1 - 1) hd hn le_rfl hf z v hz hv

end BasinFinder

/-! ## The evaluate sweep (lines 76-84) computes the row model -/

namespace BasinFinder

theorem rowCur_eq (st : RowSt) (q : Nat) :
    rowCur st q = rowCursor st.z q (st.k - rowCurPrev st q) (rowCurPrev st q) := by
  cases q with
  | zero => simp [rowCur, rowCurPrev]
  | succ q => simp [rowCur, rowCurPrev]

theorem cursorLoop_spec (z : List Val) (off2 d n : Nat) (zr : Nat → Val) (kmax : Nat)
    (hz : RowIs z off2 d (n + 1) zr) (hK : kmax < n) (hztop : zr (kmax + 1) = Val.pinf) (q : Nat) :
    ∀ (m kn fuel : Nat) (k : Int), k = (kn : Int) → kn + m = kmax → m < fuel →
      cursorLoop (d : Int) (off2 : Int) z (q : Int) fuel k =
        .ok (((rowCursor zr q m kn : Nat)) : Int) := by
  intro m
  induction m with
  | zero =>
    intro kn fuel k hk hkm hfuel
    subst hk
    obtain ⟨fuel, rfl⟩ : ∃ m, fuel = m + 1 := ⟨fuel - 1, by omega⟩
    have e1 := row_rd .z hz (kn + 1) (by omega) ((off2 : Int) + ((kn : Int) + 1) * (d : Int))
      (by push_cast; ring)
    have : kn = kmax := by omega
    subst this
    simp only [cursorLoop, e1, hztop, rowCursor, Val.lt, Val.ofInt]
    simp
  | succ m ih =>
    intro kn fuel k hk hkm hfuel
    subst hk
    obtain ⟨fuel, rfl⟩ : ∃ m, fuel = m + 1 := ⟨fuel - 1, by omega⟩
    have e1 := row_rd .z hz (kn + 1) (by omega) ((off2 : Int) + ((kn : Int) + 1) * (d : Int))
      (by push_cast; ring)
    have e2 := ih (kn + 1) fuel ((kn : Int) + 1) (by push_cast; rfl) (by omega) (by omega)
    have hq : Val.ofInt (q : Int) = Val.fin (q : ℚ) := by simp [Val.ofInt]
    by_cases hs : Val.lt (zr (kn + 1)) (Val.fin (q : ℚ)) = true
    · simp only [cursorLoop, e1, hq, hs, if_true, e2, rowCursor]
    · simp only [cursorLoop, e1, hq, hs, rowCursor]
      simp

theorem evalStep_spec (fr : Nat → ℚ) (f z : List Val) (v : List Int) (off1 off2 d n : Nat)
    (hd : 0 < d) (hn : 1 ≤ n) (hf : RowIs f off1 d n (fun j => Val.fin (fr j)))
    (hz : RowIs z off2 d (n + 1) (rowStackAt fr (n - 1)).z)
    (hv : RowIs v off1 d n (fun j => (((rowStackAt fr (n - 1)).v j : Nat) : Int)))
    (out0 : List Val) (basins0 : List Int) (hout0 : InRow out0 off1 d n)
    (hbasins0 : InRow basins0 off1 d n) (q : Nat) (hq : q < n)
    (S : Int × List Val × List Int)
    (hS : EvalRel fr (rowStackAt fr (n - 1)) off1 d n out0 basins0 q S) :
    ∃ S1, evalStep (d : Int) (off1 : Int) (off2 : Int) f z v (q : Int) S = .ok S1 ∧
      EvalRel fr (rowStackAt fr (n - 1)) off1 d n out0 basins0 (q + 1) S1 := by
  obtain ⟨k, out, basins⟩ := S
  obtain ⟨hk, hor, hoo, hbr, hbo⟩ := hS
  simp only at hk hor hoo hbr hbo
  have inv := buildInv ℚ fr (n - 1)
  have hkn : (rowStackAt fr (n - 1)).k ≤ n - 1 := inv.k_le
  obtain ⟨hc1, -, -⟩ := rowCur_spec inv q
  have hprev : rowCurPrev (rowStackAt fr (n - 1)) q ≤ (rowStackAt fr (n - 1)).k := by
    cases q with
    | zero => exact Nat.zero_le _
    | succ q => exact (rowCur_spec inv q).1
  have hzlen : n + 1 ≤ z.length := by
    have := hz.inRow n (by omega)
    have h2 : n ≤ n * d := Nat.le_mul_of_pos_right _ hd
    omega
  have e1 := cursorLoop_spec z off2 d n _ (rowStackAt fr (n - 1)).k hz (by omega) inv.ztop q
    ((rowStackAt fr (n - 1)).k - rowCurPrev (rowStackAt fr (n - 1)) q)
    (rowCurPrev (rowStackAt fr (n - 1)) q) (z.length + 1) k hk (by omega) (by omega)
  rw [← rowCur_eq] at e1
  have e2 := row_rd .v hv (rowCur (rowStackAt fr (n - 1)) q) (by omega) _ (idx_cast off1 _ d)
  have hb : rowBasin (rowStackAt fr (n - 1)) q ≤ n - 1 := rowBasin_le inv q
  have e3 := wr_ok .basins basins _ _ (((rowBasin (rowStackAt fr (n - 1)) q : Nat)) : Int)
    (idx_cast off1 q d) (hbo.keeps_inRow hbasins0 q hq)
  have e4 := row_rd .f hf (rowBasin (rowStackAt fr (n - 1)) q) (by omega) _ (idx_cast off1 _ d)
  have e5 := wr_ok .out out _ _ (Val.fin (rowOut fr (rowStackAt fr (n - 1)) q))
    (idx_cast off1 q d) (hoo.keeps_inRow hout0 q hq)
  have hval : Val.add (Val.ofInt (((q : Int) - ((rowBasin (rowStackAt fr (n - 1)) q : Nat) : Int)) *
      ((q : Int) - ((rowBasin (rowStackAt fr (n - 1)) q : Nat) : Int))))
      (Val.fin (fr (rowBasin (rowStackAt fr (n - 1)) q))) =
      Val.fin (rowOut fr (rowStackAt fr (n - 1)) q) := by
    simp only [Val.add, Val.ofInt, rowOut]
    push_cast
    rfl
  refine ⟨(((rowCur (rowStackAt fr (n - 1)) q : Nat) : Int),
    out.set (off1 + q * d) (Val.fin (rowOut fr (rowStackAt fr (n - 1)) q)),
    basins.set (off1 + q * d) (((rowBasin (rowStackAt fr (n - 1)) q : Nat)) : Int)), ?_, ?_⟩
  · simp only [evalStep, e1]
    have e2' : rd BufId.v v ((off1 : Int) + ((rowCur (rowStackAt fr (n - 1)) q : Nat) : Int) * (d : Int))
        = .ok (((rowBasin (rowStackAt fr (n - 1)) q : Nat)) : Int) := e2
    simp only [e2', e3, e4, hval, e5]
  · refine ⟨rfl, ?_, hoo.set_slot q hq _, ?_, hbo.set_slot q hq _⟩
    · exact RowIs.set_extend (r := fun j => Val.fin (rowOut fr (rowStackAt fr (n - 1)) j)) hd hor
        (hoo.keeps_inRow hout0 q hq)
    · exact RowIs.set_extend
        (r := fun j => (((rowBasin (rowStackAt fr (n - 1)) j : Nat)) : Int)) hd hbr
        (hbo.keeps_inRow hbasins0 q hq)

theorem evalSweep_spec (fr : Nat → ℚ) (f z : List Val) (v : List Int) (off1 off2 d n : Nat)
    (hd : 0 < d) (hn : 1 ≤ n) (hf : RowIs f off1 d n (fun j => Val.fin (fr j)))
    (hz : RowIs z off2 d (n + 1) (rowStackAt fr (n - 1)).z)
    (hv : RowIs v off1 d n (fun j => (((rowStackAt fr (n - 1)).v j : Nat) : Int)))
    (out0 : List Val) (basins0 : List Int) (hout0 : InRow out0 off1 d n)
    (hbasins0 : InRow basins0 off1 d n) :
    ∃ out1 basins1, evalSweep (n : Int) (d : Int) (off1 : Int) (off2 : Int) f z v out0 basins0 =
        .ok (out1, basins1) ∧
      RowIs out1 off1 d n (fun j => Val.fin (rowOut fr (rowStackAt fr (n - 1)) j)) ∧
      SameOutside out0 out1 off1 d n ∧
      RowIs basins1 off1 d n (fun j => ((rowBasin (rowStackAt fr (n - 1)) j : Nat) : Int)) ∧
      SameOutside basins0 basins1 off1 d n := by
  have hloop := forLoop_inv (evalStep (d : Int) (off1 : Int) (off2 : Int) f z v)
    (fun i S => EvalRel fr (rowStackAt fr (n - 1)) off1 d n out0 basins0 i S) n 0
    (by
      intro i S _ hi hS
      exact evalStep_spec fr f z v off1 off2 d n hd hn hf hz hv out0 basins0 hout0 hbasins0 i
        (by omega) S hS)
    (0, out0, basins0)
    ⟨rfl, fun j hj => absurd hj (Nat.not_lt_zero j), SameOutside.refl _ _ _ _,
      fun j hj => absurd hj (Nat.not_lt_zero j), SameOutside.refl _ _ _ _⟩
  obtain ⟨⟨k, out1, basins1⟩, hrun, hS⟩ := hloop
  obtain ⟨-, h1, h2, h3, h4⟩ := hS
  simp only [Nat.zero_add] at h1 h3
  refine ⟨out1, basins1, ?_, h1, h2, h3, h4⟩
  simp only [Nat.cast_zero] at hrun
  simp only [evalSweep, sub_zero, Int.toNat_ofNat, hrun]

end BasinFinder

/-! ## One row of the functor (lines 43-84) -/

namespace BasinFinder

theorem rowBody_spec (fr : Nat → ℚ) (f : List Val) (n1 n2 i0 i2 : Nat) (hd : 0 < n2)
    (hn : 1 ≤ n1) (hf : RowIs f (i0 * n1 * n2 + i2) n2 n1 (fun j => Val.fin (fr j)))
    (b : Bufs) (hz : InRow b.z (i0 * (n1 + 1) * n2 + i2) n2 (n1 + 1))
    (hv : InRow b.v (i0 * n1 * n2 + i2) n2 n1) (hout : InRow b.out (i0 * n1 * n2 + i2) n2 n1)
    (hbasins : InRow b.basins (i0 * n1 * n2 + i2) n2 n1) :
    ∃ b1, rowBody (n1 : Int) (n2 : Int) f (i0 : Int) (i2 : Int) b = .ok b1 ∧
      rowBuild (n1 : Int) (n2 : Int) f (i0 : Int) (i2 : Int) b.z b.v =
        .ok ((((rowStackAt fr (n1 - 1)).k : Nat) : Int), b1.z, b1.v) ∧
      RowDone fr n1 n2 i0 i2 b1 ∧ Frame n1 n2 i0 i2 b b1 := by
  have ho1 : (i0 : Int) * (n1 : Int) * (n2 : Int) + (i2 : Int) = ((i0 * n1 * n2 + i2 : ℕ) : Int) := by
    push_cast; rfl
  have ho2 : (i0 : Int) * ((n1 : Int) + 1) * (n2 : Int) + (i2 : Int) =
      ((i0 * (n1 + 1) * n2 + i2 : ℕ) : Int) := by
    push_cast; rfl
  obtain ⟨⟨k, z1, v1⟩, hbuild, hk, hzr, hzo, hvr, hvo⟩ :=
    rowBuild_spec fr f n1 n2 i0 i2 hd hn hf b.z b.v hz hv
  simp only at hk hzr hzo hvr hvo
  obtain ⟨out1, basins1, heval, h1, h2, h3, h4⟩ :=
    evalSweep_spec fr f z1 v1 (i0 * n1 * n2 + i2) (i0 * (n1 + 1) * n2 + i2) n2 n1 hd hn hf hzr hvr
      b.out b.basins hout hbasins
  refine ⟨⟨out1, z1, v1, basins1⟩, ?_, ?_, ⟨hzr, hvr, h1, h3⟩, ⟨hzo, hvo, h2, h4⟩⟩
  · simp only [rowBody, hbuild, ho1, ho2, heval]
  · rw [hbuild, hk]

/-! ## Rows are disjoint and fill the buffers -/

theorem divmod_unique (m a b c d : Nat) (hb : b < m) (hd : d < m) (h : a * m + b = c * m + d) :
    a = c ∧ b = d := by
  have h1 : (a * m + b) % m = (c * m + d) % m := by rw [h]
  have h2 : (a * m + b) / m = (c * m + d) / m := by rw [h]
  have hm : 0 < m := by omega
  rw [Nat.mul_comm a m, Nat.mul_comm c m, Nat.mul_add_mod, Nat.mul_add_mod, Nat.mod_eq_of_lt hb,
    Nat.mod_eq_of_lt hd] at h1
  rw [Nat.mul_comm a m, Nat.mul_comm c m, Nat.mul_add_div hm, Nat.mul_add_div hm,
    Nat.div_eq_of_lt hb, Nat.div_eq_of_lt hd] at h2
  exact ⟨by omega, h1⟩

theorem slot_eq (n1 n2 i0 i2 j : Nat) : i0 * n1 * n2 + i2 + j * n2 = (i0 * n1 + j) * n2 + i2 := by
  ring

theorem slot_inj (n1 n2 i0 i2 j i0' i2' j' : Nat) (hj : j < n1) (hj' : j' < n1) (hi : i2 < n2)
    (hi' : i2' < n2) (h : i0 * n1 * n2 + i2 + j * n2 = i0' * n1 * n2 + i2' + j' * n2) :
    i0 = i0' ∧ i2 = i2' ∧ j = j' := by
  rw [slot_eq, slot_eq] at h
  obtain ⟨h1, h2⟩ := divmod_unique n2 _ _ _ _ hi hi' h
  obtain ⟨h3, h4⟩ := divmod_unique n1 _ _ _ _ hj hj' h1
  exact ⟨h3, h2, h4⟩

theorem slot_lt (n0 n1 n2 i0 i2 j : Nat) (h0 : i0 < n0) (hj : j < n1) (hi : i2 < n2) :
    i0 * n1 * n2 + i2 + j * n2 < n0 * n1 * n2 := by
  rw [slot_eq]
  have h1 : i0 * n1 + j + 1 ≤ n0 * n1 := by
    have : (i0 + 1) * n1 ≤ n0 * n1 := Nat.mul_le_mul_right _ h0
    have e : (i0 + 1) * n1 = i0 * n1 + n1 := by ring
    omega
  have h2 : (i0 * n1 + j + 1) * n2 ≤ n0 * n1 * n2 := Nat.mul_le_mul_right _ h1
  have e : (i0 * n1 + j + 1) * n2 = (i0 * n1 + j) * n2 + n2 := by ring
  omega

theorem slot_exists (n0 n1 n2 i : Nat) (hi : i < n0 * n1 * n2) :
    ∃ i0 i2 j, i0 < n0 ∧ i2 < n2 ∧ j < n1 ∧ i = i0 * n1 * n2 + i2 + j * n2 := by
  have hn2 : 0 < n2 := by
    rcases Nat.eq_zero_or_pos n2 with h | h
    · subst h; simp at hi
    · exact h
  have hn1 : 0 < n1 := by
    rcases Nat.eq_zero_or_pos n1 with h | h
    · subst h; simp at hi
    · exact h
  refine ⟨i / n2 / n1, i % n2, i / n2 % n1, ?_, Nat.mod_lt _ hn2, Nat.mod_lt _ hn1, ?_⟩
  · rw [Nat.div_lt_iff_lt_mul hn1, Nat.div_lt_iff_lt_mul hn2]
    exact hi
  · rw [slot_eq]
    have e1 : i / n2 / n1 * n1 + i / n2 % n1 = i / n2 := Nat.div_add_mod' _ _
    rw [e1]
    exact (Nat.div_add_mod' _ _).symm

theorem inRow_of_length {α : Type} (l : List α) (n0 n1 n2 i0 i2 : Nat) (h0 : i0 < n0)
    (hi : i2 < n2) (hl : l.length = n0 * n1 * n2) : InRow l (i0 * n1 * n2 + i2) n2 n1 := by
  intro j hj
  rw [hl]
  exact slot_lt n0 n1 n2 i0 i2 j h0 hj hi

/-- A row that is complete stays complete when a different row is written. -/
theorem RowIs.of_sameOutside {α : Type} {l l1 : List α} {n1 n2 i0 i2 i0' i2' : Nat}
    {r : Nat → α} (h : RowIs l (i0' * n1 * n2 + i2') n2 n1 r)
    (hs : SameOutside l l1 (i0 * n1 * n2 + i2) n2 n1) (hi : i2 < n2) (hi' : i2' < n2)
    (hne : ¬(i0 = i0' ∧ i2 = i2')) : RowIs l1 (i0' * n1 * n2 + i2') n2 n1 r := by
  intro j hj
  rw [hs.2 _ (fun j' hj' he => ?_)]
  · exact h j hj
  · obtain ⟨h1, h2, -⟩ := slot_inj n1 n2 _ _ _ _ _ _ hj hj' hi' hi he
    exact hne ⟨h1.symm, h2.symm⟩

theorem RowDone.of_frame {fr : Nat → ℚ} {n1 n2 i0 i2 i0' i2' : Nat} {b b1 : Bufs}
    (h : RowDone fr n1 n2 i0' i2' b) (hf : Frame n1 n2 i0 i2 b b1) (hi : i2 < n2)
    (hi' : i2' < n2) (hne : ¬(i0 = i0' ∧ i2 = i2')) : RowDone fr n1 n2 i0' i2' b1 :=
  ⟨h.z_row.of_sameOutside hf.z_out hi hi' hne, h.v_row.of_sameOutside hf.v_out hi hi' hne,
    h.out_row.of_sameOutside hf.out_out hi hi' hne,
    h.basins_row.of_sameOutside hf.basins_out hi hi' hne⟩

theorem Shaped.frame_keeps {n0 n1 n2 i0 i2 : Nat} {b b1 : Bufs} (h : Shaped n0 n1 n2 b)
    (hf : Frame n1 n2 i0 i2 b b1) : Shaped n0 n1 n2 b1 :=
  ⟨hf.out_out.1.trans h.out_len, hf.z_out.1.trans h.z_len, hf.v_out.1.trans h.v_len,
    hf.basins_out.1.trans h.basins_len⟩

theorem frow_rowIs (f : List Val) (n0 n1 n2 i0 i2 : Nat) (h0 : i0 < n0) (hi : i2 < n2)
    (hl : f.length = n0 * n1 * n2) (hfin : AllFinite f) :
    RowIs f (i0 * n1 * n2 + i2) n2 n1 (fun j => Val.fin (frow f n1 n2 i0 i2 j)) := by
  intro j hj
  have hlt : i0 * n1 * n2 + i2 + j * n2 < f.length := by
    rw [hl]; exact slot_lt n0 n1 n2 i0 i2 j h0 hj hi
  obtain ⟨a, ha⟩ := hfin _ (List.getElem_mem hlt)
  have hget : f[i0 * n1 * n2 + i2 + j * n2]? = some (Val.fin a) := by
    rw [List.getElem?_eq_getElem hlt, ha]
  simp only [frow, sample, hget]

end BasinFinder

/-! ## The whole functor -/

namespace BasinFinder

theorem rowLoop_spec (f : List Val) (n0 n1 n2 i0 : Nat) (h0 : i0 < n0) (hn : 1 ≤ n1)
    (frow : Nat → Nat → Nat → Nat → Nat → ℚ)
    (hfr : ∀ a c, a < n0 → c < n2 →
      RowIs f (a * n1 * n2 + c) n2 n1 (fun j => Val.fin (frow n1 n2 a c j)))
    (b : Bufs) (hb : Shaped n0 n1 n2 b)
    (hdone : ∀ a c, a < i0 → c < n2 → RowDone (frow n1 n2 a c) n1 n2 a c b) :
    ∃ b1, forLoop (fun i2 b1 => rowBody (n1 : Int) (n2 : Int) f (i0 : Int) i2 b1) n2 0 b = .ok b1 ∧
      Shaped n0 n1 n2 b1 ∧
      ∀ a c, a < i0 + 1 → c < n2 → RowDone (frow n1 n2 a c) n1 n2 a c b1 := by
  have hloop := forLoop_inv (fun i2 b1 => rowBody (n1 : Int) (n2 : Int) f (i0 : Int) i2 b1)
    (fun i2 B => Shaped n0 n1 n2 B ∧
      (∀ a c, a < i0 → c < n2 → RowDone (frow n1 n2 a c) n1 n2 a c B) ∧
      (∀ c, c < i2 → RowDone (frow n1 n2 i0 c) n1 n2 i0 c B)) n2 0
    (by
      rintro i2 B _ hi2 ⟨hs, hprev, hcur⟩
      have hi2' : i2 < n2 := by omega
      obtain ⟨B1, hrun, -, hrow, hframe⟩ := rowBody_spec (frow n1 n2 i0 i2) f n1 n2 i0 i2
        (by omega) hn (hfr i0 i2 h0 hi2') B
        (inRow_of_length B.z n0 (n1 + 1) n2 i0 i2 h0 hi2' hs.z_len)
        (inRow_of_length B.v n0 n1 n2 i0 i2 h0 hi2' hs.v_len)
        (inRow_of_length B.out n0 n1 n2 i0 i2 h0 hi2' hs.out_len)
        (inRow_of_length B.basins n0 n1 n2 i0 i2 h0 hi2' hs.basins_len)
      refine ⟨B1, hrun, hs.frame_keeps hframe, ?_, ?_⟩
      · intro a c ha hc
        exact (hprev a c ha hc).of_frame hframe hi2' hc (by omega)
      · intro c hc
        rcases Nat.lt_or_eq_of_le (Nat.lt_succ_iff.mp hc) with hlt | rfl
        · exact (hcur c hlt).of_frame hframe hi2' (by omega) (by omega)
        · exact hrow)
    b ⟨hb, hdone, fun c hc => absurd hc (Nat.not_lt_zero c)⟩
  obtain ⟨B, hrun, hs, hprev, hcur⟩ := hloop
  simp only [Nat.zero_add] at hcur
  simp only [Nat.cast_zero] at hrun
  refine ⟨B, hrun, hs, ?_⟩
  intro a c ha hc
  rcases Nat.lt_or_eq_of_le (Nat.lt_succ_iff.mp ha) with hlt | rfl
  · exact hprev a c hlt hc
  · exact hcur c hc

/-- On buffers of the right sizes and finite samples the functor returns, the buffers keep
their sizes, and every row holds what the row model computes from that row's samples. -/
theorem functor_spec_gen (f : List Val) (n0 n1 n2 : Nat) (hn : 1 ≤ n1)
    (frow : Nat → Nat → Nat → Nat → Nat → ℚ)
    (hfr : ∀ a c, a < n0 → c < n2 →
      RowIs f (a * n1 * n2 + c) n2 n1 (fun j => Val.fin (frow n1 n2 a c j)))
    (b : Bufs) (hb : Shaped n0 n1 n2 b) :
    ∃ b1, BasinFinderFunctor (n0 : Int) (n1 : Int) (n2 : Int) f b = .ok b1 ∧
      Shaped n0 n1 n2 b1 ∧
      ∀ i0 i2, i0 < n0 → i2 < n2 → RowDone (frow n1 n2 i0 i2) n1 n2 i0 i2 b1 := by
  have hloop := forLoop_inv
    (fun i0 b0 => forLoop (fun i2 b1 => rowBody (n1 : Int) (n2 : Int) f i0 i2 b1) n2 0 b0)
    (fun i0 B => Shaped n0 n1 n2 B ∧
      ∀ a c, a < i0 → c < n2 → RowDone (frow n1 n2 a c) n1 n2 a c B) n0 0
    (by
      rintro i0 B _ hi0 ⟨hs, hprev⟩
      exact rowLoop_spec f n0 n1 n2 i0 (by omega) hn frow hfr B hs hprev)
    b ⟨hb, fun a c ha _ => absurd ha (Nat.not_lt_zero a)⟩
  obtain ⟨B, hrun, hs, hdone⟩ := hloop
  simp only [Nat.zero_add] at hdone
  simp only [Nat.cast_zero] at hrun
  refine ⟨B, ?_, hs, hdone⟩
  simp only [BasinFinderFunctor, sub_zero, Int.toNat_ofNat]
  exact hrun

theorem functor_spec (f : List Val) (n0 n1 n2 : Nat) (hn : 1 ≤ n1)
    (hl : f.length = n0 * n1 * n2) (hfin : AllFinite f) (b : Bufs) (hb : Shaped n0 n1 n2 b) :
    ∃ b1, BasinFinderFunctor (n0 : Int) (n1 : Int) (n2 : Int) f b = .ok b1 ∧
      Shaped n0 n1 n2 b1 ∧
      ∀ i0 i2, i0 < n0 → i2 < n2 → RowDone (frow f n1 n2 i0 i2) n1 n2 i0 i2 b1 :=
  functor_spec_gen f n0 n1 n2 hn (frow f)
    (fun a c ha hc => frow_rowIs f n0 n1 n2 a c ha hc hl hfin) b hb

end BasinFinder

/-! ## Consequences used by several properties -/

namespace BasinFinder

theorem RowDone.buildEndsWith {f : List Val} {n0 n1 n2 i0 i2 : Nat} {fr : Nat → ℚ} {b : Bufs}
    (h : RowDone fr n1 n2 i0 i2 b) (h0 : i0 < n0) (hi : i2 < n2) (hn : 1 ≤ n1)
    (hf : RowIs f (i0 * n1 * n2 + i2) n2 n1 (fun j => Val.fin (fr j))) :
    BuildEndsWith f n0 n1 n2 i0 i2 (rowStackAt fr (n1 - 1)).k b.z b.v := by
  intro z0 v0 hz0 hv0
  obtain ⟨⟨k, z1, v1⟩, hrun, hk, hzr, -, hvr, -⟩ := rowBuild_spec fr f n1 n2 i0 i2 (by omega) hn hf
    z0 v0 (inRow_of_length z0 n0 (n1 + 1) n2 i0 i2 h0 hi hz0)
    (inRow_of_length v0 n0 n1 n2 i0 i2 h0 hi hv0)
  simp only at hk hzr hvr
  subst hk
  exact ⟨z1, v1, hrun, fun j hj => (hzr j hj).trans (h.z_row j hj).symm,
    fun j hj => (hvr j hj).trans (h.v_row j hj).symm⟩

/-- Two buffers of the shape `[n0,n1,n2]` that agree on every row are equal. -/
theorem list_eq_of_rows {α : Type} (l l1 : List α) (n0 n1 n2 : Nat)
    (hl : l.length = n0 * n1 * n2) (hl1 : l1.length = n0 * n1 * n2)
    (h : ∀ i0 i2 j, i0 < n0 → i2 < n2 → j < n1 →
      l[i0 * n1 * n2 + i2 + j * n2]? = l1[i0 * n1 * n2 + i2 + j * n2]?) : l = l1 := by
  apply List.ext_getElem?
  intro i
  by_cases hi : i < n0 * n1 * n2
  · obtain ⟨i0, i2, j, h0, h2, hj, rfl⟩ := slot_exists n0 n1 n2 i hi
    exact h i0 i2 j h0 h2 hj
  · rw [List.getElem?_eq_none (by omega), List.getElem?_eq_none (by omega)]

/-- The result of the functor does not depend on what the output buffers held. -/
theorem functor_det (f : List Val) (n0 n1 n2 : Nat) (hn : 1 ≤ n1)
    (hl : f.length = n0 * n1 * n2) (hfin : AllFinite f) (b b' : Bufs) (hb : Shaped n0 n1 n2 b)
    (hb' : Shaped n0 n1 n2 b') :
    BasinFinderFunctor (n0 : Int) (n1 : Int) (n2 : Int) f b =
      BasinFinderFunctor (n0 : Int) (n1 : Int) (n2 : Int) f b' := by
  obtain ⟨B, hrun, hs, hrow⟩ := functor_spec f n0 n1 n2 hn hl hfin b hb
  obtain ⟨B', hrun', hs', hrow'⟩ := functor_spec f n0 n1 n2 hn hl hfin b' hb'
  rw [hrun, hrun']
  have e1 : B.out = B'.out := list_eq_of_rows _ _ n0 n1 n2 hs.out_len hs'.out_len
    (fun i0 i2 j h0 h2 hj =>
      ((hrow i0 i2 h0 h2).out_row j hj).trans ((hrow' i0 i2 h0 h2).out_row j hj).symm)
  have e2 : B.z = B'.z := list_eq_of_rows _ _ n0 (n1 + 1) n2 hs.z_len hs'.z_len
    (fun i0 i2 j h0 h2 hj =>
      ((hrow i0 i2 h0 h2).z_row j hj).trans ((hrow' i0 i2 h0 h2).z_row j hj).symm)
  have e3 : B.v = B'.v := list_eq_of_rows _ _ n0 n1 n2 hs.v_len hs'.v_len
    (fun i0 i2 j h0 h2 hj =>
      ((hrow i0 i2 h0 h2).v_row j hj).trans ((hrow' i0 i2 h0 h2).v_row j hj).symm)
  have e4 : B.basins = B'.basins := list_eq_of_rows _ _ n0 n1 n2 hs.basins_len hs'.basins_len
    (fun i0 i2 j h0 h2 hj =>
      ((hrow i0 i2 h0 h2).basins_row j hj).trans ((hrow' i0 i2 h0 h2).basins_row j hj).symm)
  cases B
  cases B'
  simp only at e1 e2 e3 e4
  subst e1 e2 e3 e4
  rfl

end BasinFinder

/-! ## Properties of the functor -/

namespace BasinFinder

/-- C1 (brute-force correctness of the distance output). For every shape `[n0,n1,n2]` with
`n1 ≥ 1`, every input buffer of finite samples and output buffers of the right sizes, the
functor returns, and for every row `(i0, i2)` and position `q < n1` the slot
`offset1 + q*dim2` of `out` holds the minimum over `p < n1` of `(q - p)^2 + f(i0, p, i2)`,
arithmetic being exact. -/
theorem C1_out_is_brute_force_minimum (f : List Val) (n0 n1 n2 : Nat) (hn : 1 ≤ n1)
    (hl : f.length = n0 * n1 * n2) (hfin : AllFinite f) (b : Bufs) (hb : Shaped n0 n1 n2 b) :
    ∃ B, BasinFinderFunctor (n0 : Int) (n1 : Int) (n2 : Int) f b = .ok B ∧
      ∀ i0 i2 q, i0 < n0 → i2 < n2 → q < n1 →
        ∃ m : ℚ, B.out[i0 * n1 * n2 + i2 + q * n2]? = some (Val.fin m) ∧
          IsLeast {y | ∃ p, p < n1 ∧
            y = ((q : ℚ) - (p : ℚ)) ^ 2 + sample f (i0 * n1 * n2 + i2 + p * n2)} m := by
  obtain ⟨B, hrun, -, hrow⟩ := functor_spec f n0 n1 n2 hn hl hfin b hb
  refine ⟨B, hrun, ?_⟩
  intro i0 i2 q h0 h2 hq
  have inv := buildInv ℚ (frow f n1 n2 i0 i2) (n1 - 1)
  refine ⟨_, (hrow i0 i2 h0 h2).out_row q hq, ?_, ?_⟩
  · refine ⟨rowBasin (rowStackAt (frow f n1 n2 i0 i2) (n1 - 1)) q, ?_, ?_⟩
    · have := rowBasin_le inv q
      omega
    · simp only [rowOut, frow]
      ring
  · rintro y ⟨p, hp, rfl⟩
    exact rowOut_min inv q p (by omega)

/-- C1 at the row `[3, 1, 2]` of shape `[1,3,1]`. -/
theorem C1_witness :
    (1 ≤ 3 ∧ row312.length = 1 * 3 * 1 ∧
      AllFinite row312 ∧
      Shaped 1 3 1 junk3) ∧
    ∃ B, BasinFinderFunctor ((1 : ℕ) : Int) ((3 : ℕ) : Int) ((1 : ℕ) : Int)
        row312 junk3 = .ok B ∧
      ∀ i0 i2 q : ℕ, i0 < 1 → i2 < 1 → q < 3 →
        ∃ m : ℚ, B.out[i0 * 3 * 1 + i2 + q * 1]? = some (Val.fin m) ∧
          IsLeast {y | ∃ p : ℕ, p < 3 ∧
            y = ((q : ℚ) - (p : ℚ)) ^ 2 +
              sample row312 (i0 * 3 * 1 + i2 + p * 1)} m :=
  ⟨⟨by decide, rfl, by simp [AllFinite, row312], ⟨rfl, rfl, rfl, rfl⟩⟩,
    C1_out_is_brute_force_minimum row312 1 3 1 (by decide) rfl
      (by simp [AllFinite, row312]) junk3 ⟨rfl, rfl, rfl, rfl⟩⟩

end BasinFinder

namespace BasinFinder

/-- C4, as stated, fails: on the row `0, 0` of shape `[1,2,1]` the functor does not produce
`out = [0, 1]` and `basins = [0, 0]`. -/
theorem C4_counterexample :
    ¬ ∃ B, BasinFinderFunctor 1 2 1 row00 junk2 = .ok B ∧
      B.out = [Val.fin 0, Val.fin 1] ∧ B.basins = [0, 0] := by
  rintro ⟨B, hB, h1, h2⟩
  have e : BasinFinderFunctor 1 2 1 row00 junk2 =
      .ok ⟨[Val.fin 0, Val.fin 0], [Val.ninf, Val.fin (1 / 2), Val.pinf], [0, 1], [0, 1]⟩ := by
    decide!
  rw [e] at hB
  cases hB
  revert h2
  decide

/-- C4 as amended (two-point row). For the single row `0, 0` of shape `[1,2,1]`, whatever the
output buffers held, the functor produces `out = [0, 0]` and `basins = [0, 1]` (with
`z = [-inf, 1/2, +inf]` and `v = [0, 1]`). -/
theorem C4_two_point_row (b : Bufs) (hb : Shaped 1 2 1 b) :
    BasinFinderFunctor 1 2 1 row00 b =
      .ok ⟨[Val.fin 0, Val.fin 0], [Val.ninf, Val.fin (1 / 2), Val.pinf], [0, 1], [0, 1]⟩ := by
  have e : BasinFinderFunctor 1 2 1 row00 junk2 =
      .ok ⟨[Val.fin 0, Val.fin 0], [Val.ninf, Val.fin (1 / 2), Val.pinf], [0, 1], [0, 1]⟩ := by
    decide!
  rw [← e]
  exact functor_det row00 1 2 1 (by decide) rfl (by simp [AllFinite, row00]) b junk2 hb
    ⟨rfl, rfl, rfl, rfl⟩

/-- C4 as amended, on output buffers that held zeros. -/
theorem C4_witness :
    Shaped 1 2 1 ⟨[Val.fin 0, Val.fin 0], [Val.fin 0, Val.fin 0, Val.fin 0], [0, 0], [0, 0]⟩ ∧
    BasinFinderFunctor 1 2 1 row00
        ⟨[Val.fin 0, Val.fin 0], [Val.fin 0, Val.fin 0, Val.fin 0], [0, 0], [0, 0]⟩ =
      .ok ⟨[Val.fin 0, Val.fin 0], [Val.ninf, Val.fin (1 / 2), Val.pinf], [0, 1], [0, 1]⟩ :=
  ⟨⟨rfl, rfl, rfl, rfl⟩, C4_two_point_row _ ⟨rfl, rfl, rfl, rfl⟩⟩

/-- C5 (row with a dominant minimum). For the single row `10, 0, 10, 10, 10` of shape
`[1,5,1]`, whatever the output buffers held, the functor returns buffers with
`basins = [1, 1, 1, 1, 1]` and `out = [1, 0, 1, 4, 9]`. -/
theorem C5_dominant_minimum (b : Bufs) (hb : Shaped 1 5 1 b) :
    ∃ B, BasinFinderFunctor 1 5 1 rowDominant b = .ok B ∧
      B.basins = [1, 1, 1, 1, 1] ∧
      B.out = [Val.fin 1, Val.fin 0, Val.fin 1, Val.fin 4, Val.fin 9] := by
  have e : BasinFinderFunctor 1 5 1 rowDominant junk5 =
      .ok ⟨[Val.fin 1, Val.fin 0, Val.fin 1, Val.fin 4, Val.fin 9],
        [Val.ninf, Val.fin (-9 / 2), Val.fin (25 / 6), Val.pinf, Val.fin 0, Val.fin 0],
        [0, 1, 4, 0, 0], [1, 1, 1, 1, 1]⟩ := by
    decide!
  have hd := functor_det rowDominant 1 5 1 (by decide) rfl (by simp [AllFinite, rowDominant]) b
    junk5 hb ⟨rfl, rfl, rfl, rfl⟩
  exact ⟨_, hd.trans e, rfl, rfl⟩

/-- C5 on output buffers with arbitrary prior contents. -/
theorem C5_witness :
    Shaped 1 5 1 junk5 ∧
    ∃ B, BasinFinderFunctor 1 5 1 rowDominant junk5 = .ok B ∧
      B.basins = [1, 1, 1, 1, 1] ∧
      B.out = [Val.fin 1, Val.fin 0, Val.fin 1, Val.fin 4, Val.fin 9] :=
  ⟨⟨rfl, rfl, rfl, rfl⟩, C5_dominant_minimum junk5 ⟨rfl, rfl, rfl, rfl⟩⟩

end BasinFinder

namespace BasinFinder

end BasinFinder

namespace BasinFinder

end BasinFinder

/-! ## Index ranges, denominators -/

namespace BasinFinder

theorem evalSweep_eq_upTo (n : Nat) (d off1 off2 : Int) (f z : List Val) (v : List Int)
    (out : List Val) (basins : List Int) :
    evalSweep (n : Int) d off1 off2 f z v out basins =
      Except.map (fun S => (S.2.1, S.2.2)) (evalSweepTo n d off1 off2 f z v out basins) := by
  simp only [evalSweep, evalSweepTo, sub_zero, Int.toNat_ofNat]
  generalize forLoop (evalStep d off1 off2 f z v) n 0 (0, out, basins) = r
  cases r with
  | error e => rfl
  | ok S => rfl

end BasinFinder

namespace BasinFinder

end BasinFinder

namespace BasinFinder

end BasinFinder

/-! ## The lower envelope over the reals -/

namespace BasinFinder

/-- C13 (lower-envelope invariant of the built stack). For every row `(i0, i2)` of a run on
finite samples with `n1 ≥ 1`, with `kfin` the stack index the build sweep of that row ends
with: for every `j ≤ kfin` and every real `x` with `z[j] ≤ x ≤ z[j+1]`, the parabola of the
apex `a = v[j]` is minimal among all samples of the row,
`(x - a)^2 + f(a) ≤ (x - p)^2 + f(p)` for every `p < n1`. -/
theorem C13_lower_envelope (f : List Val) (n0 n1 n2 : Nat) (hn : 1 ≤ n1)
    (hl : f.length = n0 * n1 * n2) (hfin : AllFinite f) (b : Bufs) (hb : Shaped n0 n1 n2 b) :
    ∃ B, BasinFinderFunctor (n0 : Int) (n1 : Int) (n2 : Int) f b = .ok B ∧
      ∀ i0 i2, i0 < n0 → i2 < n2 →
        ∃ kfin, BuildEndsWith f n0 n1 n2 i0 i2 kfin B.z B.v ∧
          ∀ j, j ≤ kfin → ∃ (zlo zhi : Val) (a : Nat),
            B.z[i0 * (n1 + 1) * n2 + i2 + j * n2]? = some zlo ∧
            B.z[i0 * (n1 + 1) * n2 + i2 + (j + 1) * n2]? = some zhi ∧
            B.v[i0 * n1 * n2 + i2 + j * n2]? = some (a : Int) ∧ a < n1 ∧
            ∀ x : ℝ, Val.leK zlo x → Val.geK zhi x → ∀ p, p < n1 →
              (x - (a : ℝ)) ^ 2 + ((sample f (i0 * n1 * n2 + i2 + a * n2) : ℚ) : ℝ) ≤
                (x - (p : ℝ)) ^ 2 + ((sample f (i0 * n1 * n2 + i2 + p * n2) : ℚ) : ℝ) := by
  obtain ⟨B, hrun, -, hrow⟩ := functor_spec f n0 n1 n2 hn hl hfin b hb
  refine ⟨B, hrun, ?_⟩
  intro i0 i2 h0 h2
  have inv := buildInv ℝ (frow f n1 n2 i0 i2) (n1 - 1)
  have hk := inv.k_le
  have hr := hrow i0 i2 h0 h2
  refine ⟨_, hr.buildEndsWith h0 h2 hn (frow_rowIs f n0 n1 n2 i0 i2 h0 h2 hl hfin), ?_⟩
  intro j hj
  have hv := inv.v_le j hj
  refine ⟨_, _, _, hr.z_row j (by omega), hr.z_row (j + 1) (by omega), hr.v_row j (by omega),
    by omega, ?_⟩
  intro x hlo hhi p hp
  exact inv.env j hj x hlo hhi p (by omega)

/-- C13 at the row `3, 1, 2` of shape `[1,3,1]`. -/
theorem C13_witness :
    (1 ≤ 3 ∧ row312.length = 1 * 3 * 1 ∧ AllFinite row312 ∧ Shaped 1 3 1 junk3) ∧
    ∃ B, BasinFinderFunctor ((1 : ℕ) : Int) ((3 : ℕ) : Int) ((1 : ℕ) : Int) row312 junk3 = .ok B ∧
      ∀ i0 i2 : ℕ, i0 < 1 → i2 < 1 →
        ∃ kfin, BuildEndsWith row312 1 3 1 i0 i2 kfin B.z B.v ∧
          ∀ j : ℕ, j ≤ kfin → ∃ (zlo zhi : Val) (a : Nat),
            B.z[i0 * (3 + 1) * 1 + i2 + j * 1]? = some zlo ∧
            B.z[i0 * (3 + 1) * 1 + i2 + (j + 1) * 1]? = some zhi ∧
            B.v[i0 * 3 * 1 + i2 + j * 1]? = some (a : Int) ∧ a < 3 ∧
            ∀ x : ℝ, Val.leK zlo x → Val.geK zhi x → ∀ p : ℕ, p < 3 →
              (x - (a : ℝ)) ^ 2 + ((sample row312 (i0 * 3 * 1 + i2 + a * 1) : ℚ) : ℝ) ≤
                (x - (p : ℝ)) ^ 2 + ((sample row312 (i0 * 3 * 1 + i2 + p * 1) : ℚ) : ℝ) :=
  ⟨⟨by decide, rfl, by simp [AllFinite, row312], ⟨rfl, rfl, rfl, rfl⟩⟩,
    C13_lower_envelope row312 1 3 1 (by decide) rfl (by simp [AllFinite, row312]) junk3
      ⟨rfl, rfl, rfl, rfl⟩⟩

end BasinFinder

namespace BasinFinder

end BasinFinder

/-! ## Ties -/

namespace BasinFinder

end BasinFinder

namespace BasinFinder

theorem Val.geK_down {K : Type} [LinearOrderedField K] {a : Val} {x y : K} (h : Val.geK a y)
    (hxy : x ≤ y) : Val.geK a x := by
  cases a <;> simp_all [Val.geK]
  exact le_trans hxy h

theorem rowCursor_strict {K : Type} [LinearOrderedField K] {fr : Nat → ℚ} {n : Nat} {st : RowSt}
    (h : BuildInv K fr n st) (q : Nat) : ∀ m k, k + m = st.k →
      (k = 0 ∨ ∃ a : ℚ, st.z k = Val.fin a ∧ a < (q : ℚ)) →
      rowCursor st.z q m k = 0 ∨
        ∃ a : ℚ, st.z (rowCursor st.z q m k) = Val.fin a ∧ a < (q : ℚ) := by
  intro m
  induction m with
  | zero => intro k _ hk; exact hk
  | succ m ih =>
    intro k hkm hk
    by_cases hlt : Val.lt (st.z (k + 1)) (Val.fin (q : ℚ)) = true
    · have hr : rowCursor st.z q (m + 1) k = rowCursor st.z q m (k + 1) := by
        simp [rowCursor, hlt]
      rw [hr]
      apply ih (k + 1) (by omega)
      right
      rcases h.z_cases k (by omega) with ⟨a, ha⟩ | hp
      · refine ⟨a, ha, ?_⟩
        rw [ha] at hlt
        simpa [Val.lt] using hlt
      · rw [hp] at hlt
        simp [Val.lt] at hlt
    · have hr : rowCursor st.z q (m + 1) k = k := by simp [rowCursor, hlt]
      rw [hr]
      exact hk

theorem rowCur_strict {K : Type} [LinearOrderedField K] {fr : Nat → ℚ} {n : Nat} {st : RowSt}
    (h : BuildInv K fr n st) : ∀ q,
      rowCur st q = 0 ∨ ∃ a : ℚ, st.z (rowCur st q) = Val.fin a ∧ a < (q : ℚ) := by
  intro q
  induction q with
  | zero => exact rowCursor_strict h 0 st.k 0 (by omega) (Or.inl rfl)
  | succ q ih =>
    have hle := (rowCur_spec h q).1
    apply rowCursor_strict h (q + 1) (st.k - rowCur st q) (rowCur st q) (by omega)
    rcases ih with h0 | ⟨a, ha, hlt⟩
    · exact Or.inl h0
    · refine Or.inr ⟨a, ha, ?_⟩
      push_cast
      linarith

/-- The basin of the row model is the least position attaining the minimum. -/
theorem rowBasin_least {fr : Nat → ℚ} {n : Nat} {st : RowSt} (h : BuildInv ℚ fr n st)
    (q p' : Nat) (hp : p' < rowBasin st q) :
    par fr (rowBasin st q) ((q : ℕ) : ℚ) < par fr p' ((q : ℕ) : ℚ) := by
  by_contra hcon
  have hle : par fr p' ((q : ℕ) : ℚ) ≤ par fr (rowBasin st q) ((q : ℕ) : ℚ) := not_lt.mp hcon
  have hq : ((q : ℕ) : ℚ) ≤ ((sep fr (rowBasin st q) p' : ℚ) : ℚ) :=
    (par_ge_iff fr p' (rowBasin st q) hp _).1 hle
  obtain ⟨hc, hlo, hhi⟩ := rowCur_spec h q
  -- a point of the piece strictly left of `q`
  obtain ⟨x, hxlo, hxq⟩ : ∃ x : ℚ, Val.leK (st.z (rowCur st q)) x ∧ x < ((q : ℕ) : ℚ) := by
    rcases rowCur_strict h q with h0 | ⟨a, ha, hlt⟩
    · refine ⟨(q : ℚ) - 1, ?_, by linarith⟩
      rw [h0, h.z0]
      trivial
    · refine ⟨a, ?_, hlt⟩
      rw [ha]
      exact le_refl _
  have hxhi : Val.geK (st.z (rowCur st q + 1)) x := Val.geK_down hhi hxq.le
  have henv := h.env (rowCur st q) hc x hxlo hxhi p' (by
    have := h.v_le _ hc
    unfold rowBasin at hp
    omega)
  have hsx : ((sep fr (rowBasin st q) p' : ℚ) : ℚ) ≤ x :=
    (par_le_iff fr p' (rowBasin st q) hp x).1 henv
  linarith

/-- C18 (basins report the smallest-index minimiser). For every row `(i0, i2)` of a run on
finite samples with `n1 ≥ 1` and every `q < n1`: `basins[q]` is a position `p < n1`,
`out[q] = (q - p)^2 + f(p)` is at most `(q - p')^2 + f(p')` for every `p' < n1`, and strictly
below it for every `p' < p`. On the row `0, 1, 0` the functor writes `basins = [0, 0, 2]`,
so `basins[1] = 0`, although `p = 0, 1, 2` all give the value `1` at `q = 1`. -/
theorem C18_basin_is_least_minimiser (f : List Val) (n0 n1 n2 : Nat) (hn : 1 ≤ n1)
    (hl : f.length = n0 * n1 * n2) (hfin : AllFinite f) (b : Bufs) (hb : Shaped n0 n1 n2 b) :
    (∃ B, BasinFinderFunctor (n0 : Int) (n1 : Int) (n2 : Int) f b = .ok B ∧
      ∀ i0 i2 q, i0 < n0 → i2 < n2 → q < n1 →
        ∃ (p : Nat) (m : ℚ), p < n1 ∧
          B.basins[i0 * n1 * n2 + i2 + q * n2]? = some (p : Int) ∧
          B.out[i0 * n1 * n2 + i2 + q * n2]? = some (Val.fin m) ∧
          m = ((q : ℚ) - (p : ℚ)) ^ 2 + sample f (i0 * n1 * n2 + i2 + p * n2) ∧
          (∀ p', p' < n1 →
            m ≤ ((q : ℚ) - (p' : ℚ)) ^ 2 + sample f (i0 * n1 * n2 + i2 + p' * n2)) ∧
          ∀ p', p' < p →
            m < ((q : ℚ) - (p' : ℚ)) ^ 2 + sample f (i0 * n1 * n2 + i2 + p' * n2)) ∧
    BasinFinderFunctor 1 3 1 row010 junk3 =
      .ok ⟨[Val.fin 0, Val.fin 1, Val.fin 0], [Val.ninf, Val.fin 1, Val.pinf, Val.fin 0],
        [0, 2, 0], [0, 0, 2]⟩ ∧
    ∀ p : ℕ, p < 3 → ((1 : ℚ) - (p : ℚ)) ^ 2 + sample row010 p = 1 := by
  refine ⟨?_, by decide!, ?_⟩
  · obtain ⟨B, hrun, -, hrow⟩ := functor_spec f n0 n1 n2 hn hl hfin b hb
    refine ⟨B, hrun, ?_⟩
    intro i0 i2 q h0 h2 hq
    have inv := buildInv ℚ (frow f n1 n2 i0 i2) (n1 - 1)
    have hr := hrow i0 i2 h0 h2
    have hb' := rowBasin_le inv q
    have hpar : ∀ p : ℕ, par (frow f n1 n2 i0 i2) p ((q : ℕ) : ℚ) =
        ((q : ℚ) - (p : ℚ)) ^ 2 + sample f (i0 * n1 * n2 + i2 + p * n2) := by
      intro p
      simp [par, frow]
    refine ⟨rowBasin (rowStackAt (frow f n1 n2 i0 i2) (n1 - 1)) q, _, by omega,
      hr.basins_row q hq, hr.out_row q hq, ?_, ?_, ?_⟩
    · rw [rowOut_eq_par, hpar]
    · intro p' hp'
      exact rowOut_min inv q p' (by omega)
    · intro p' hp'
      have := rowBasin_least inv q p' hp'
      rw [hpar, hpar] at this
      rw [rowOut_eq_par, hpar]
      exact this
  · intro p hp
    interval_cases p <;> norm_num [sample, row010]

/-- C18 at the row `0, 1, 0` of shape `[1,3,1]`. -/
theorem C18_witness :
    (1 ≤ 3 ∧ row010.length = 1 * 3 * 1 ∧ AllFinite row010 ∧ Shaped 1 3 1 junk3) ∧
    (∃ B, BasinFinderFunctor ((1 : ℕ) : Int) ((3 : ℕ) : Int) ((1 : ℕ) : Int) row010 junk3 =
        .ok B ∧
      ∀ i0 i2 q : ℕ, i0 < 1 → i2 < 1 → q < 3 →
        ∃ (p : Nat) (m : ℚ), p < 3 ∧
          B.basins[i0 * 3 * 1 + i2 + q * 1]? = some (p : Int) ∧
          B.out[i0 * 3 * 1 + i2 + q * 1]? = some (Val.fin m) ∧
          m = ((q : ℚ) - (p : ℚ)) ^ 2 + sample row010 (i0 * 3 * 1 + i2 + p * 1) ∧
          (∀ p' : ℕ, p' < 3 →
            m ≤ ((q : ℚ) - (p' : ℚ)) ^ 2 + sample row010 (i0 * 3 * 1 + i2 + p' * 1)) ∧
          ∀ p' : ℕ, p' < p →
            m < ((q : ℚ) - (p' : ℚ)) ^ 2 + sample row010 (i0 * 3 * 1 + i2 + p' * 1)) ∧
    BasinFinderFunctor 1 3 1 row010 junk3 =
      .ok ⟨[Val.fin 0, Val.fin 1, Val.fin 0], [Val.ninf, Val.fin 1, Val.pinf, Val.fin 0],
        [0, 2, 0], [0, 0, 2]⟩ ∧
    ∀ p : ℕ, p < 3 → ((1 : ℚ) - (p : ℚ)) ^ 2 + sample row010 p = 1 :=
  ⟨⟨by decide, rfl, by simp [AllFinite, row010], ⟨rfl, rfl, rfl, rfl⟩⟩,
    C18_basin_is_least_minimiser row010 1 3 1 (by decide) rfl (by simp [AllFinite, row010]) junk3
      ⟨rfl, rfl, rfl, rfl⟩⟩

end BasinFinder

/-! ## Preconditions that are needed -/

namespace BasinFinder

/-- C20 (the finiteness precondition is necessary for index safety). On the row `+inf, 0` of
shape `[1,2,1]`: before position `q = 1` the state is `k = 0`, `z = [-inf, +inf, 0]`,
`v = [0, 0]`; the first intersection is `s = -inf`; the pop condition `s <= z[0] = -inf`
holds; the stack index becomes `k = 0 - 1`, and the next accesses `v[offset1 + k*dim2]` and
`z[offset2 + k*dim2]` use slot `-1`, outside the buffer: the run stops there. -/
theorem C20_infinite_sample_leaves_buffer :
    rowBuildUpTo 0 2 1 rowInf 0 0 junk2.z junk2.v =
      .ok (0, [Val.ninf, Val.pinf, Val.fin 0], [0, 0]) ∧
    intersect 1 (0 * 2 * 1 + 0) rowInf [0, 0] 1 0 = .ok Val.ninf ∧
    rd .z [Val.ninf, Val.pinf, Val.fin 0] (0 * (2 + 1) * 1 + 0 + 0 * 1) = .ok Val.ninf ∧
    Val.le Val.ninf Val.ninf = true ∧
    intersect 1 (0 * 2 * 1 + 0) rowInf [0, 0] 1 (0 - 1) = .error (.oob .v (-1)) ∧
    rd .z [Val.ninf, Val.pinf, Val.fin 0] (0 * (2 + 1) * 1 + 0 + (0 - 1) * 1) =
      .error (.oob .z (-1)) ∧
    popLoop 1 (0 * 2 * 1 + 0) (0 * (2 + 1) * 1 + 0) rowInf [Val.ninf, Val.pinf, Val.fin 0] [0, 0]
      1 (2 + 1) 0 Val.ninf = .error (.oob .v (-1)) ∧
    BasinFinderFunctor 1 2 1 rowInf junk2 = .error (.oob .v (-1)) := by
  refine ⟨by decide!, by decide!, by decide!, by decide, by decide!, by decide!, by decide!,
    by decide!⟩

end BasinFinder

/-! ## Termination and work of the inner loops -/

namespace BasinFinder

end BasinFinder

namespace BasinFinder

end BasinFinder

namespace BasinFinder

end BasinFinder

/-! ## The strict algorithm keeps the lower envelope -/

namespace BasinFinder

theorem Val.le_of_lt_false (s : ℚ) (z : Val) (hz : z = Val.ninf ∨ ∃ a, z = Val.fin a)
    (h : Val.lt (Val.fin s) z = false) : Val.le z (Val.fin s) = true := by
  rcases hz with rfl | ⟨a, rfl⟩
  · rfl
  · simp only [Val.le, Val.lt, decide_eq_false_iff_not, decide_eq_true_eq, not_lt] at h ⊢
    exact h

theorem Val.geK_mono_le {K : Type} [LinearOrderedField K] {a b : Val} (h : Val.le a b = true)
    (x : K) (ha : Val.geK a x) : Val.geK b x := by
  cases a <;> cases b <;> simp_all [Val.le, Val.geK]
  exact le_trans ha (by exact_mod_cast h)

theorem Val.leK_mono_le {K : Type} [LinearOrderedField K] {a b : Val} (h : Val.le a b = true)
    (x : K) (hb : Val.leK b x) : Val.leK a x := by
  cases a <;> cases b <;> simp_all [Val.le, Val.leK]
  exact le_trans (by exact_mod_cast h) hb

theorem Val.geK_or_leK_le {K : Type} [LinearOrderedField K] {a b : Val}
    (h : Val.le a b = true) (x : K) : Val.geK b x ∨ Val.leK b x := by
  cases a <;> cases b <;> simp_all [Val.le, Val.geK, Val.leK] <;> exact le_total _ _

theorem geK_chain_le {K : Type} [LinearOrderedField K] (z : Nat → Val) (k : Nat)
    (zmono : ∀ j, j ≤ k → Val.le (z j) (z (j + 1)) = true) (x : K) (i : Nat)
    (hi : Val.geK (z i) x) : ∀ j, i ≤ j → j ≤ k + 1 → Val.geK (z j) x := by
  intro j hij
  induction j, hij using Nat.le_induction with
  | base => intro _; exact hi
  | succ j hij ih =>
    intro hj
    exact Val.geK_mono_le (zmono j (by omega)) x (ih (by omega))

theorem PopInvW.popW {K : Type} [LinearOrderedField K] {fr : Nat → ℚ} {q k : Nat}
    {z : Nat → Val} {v : Nat → Nat} (h : PopInvW K fr q (k + 1) z v)
    (hs : Val.lt (Val.fin (sep fr q (v (k + 1)))) (z (k + 1)) = true) : PopInvW K fr q k z v where
  v0 := h.v0
  vlt := fun j hj => h.vlt j (by omega)
  vmono := fun i j hij hj => h.vmono i j hij (by omega)
  z0 := h.z0
  zfin := fun j h1 hj => h.zfin j h1 (by omega)
  zmono := fun j hj => h.zmono j (by omega)
  env := fun j hj => h.env j (by omega)
  above := by
    intro x hx p hp
    obtain ⟨a, ha⟩ := h.zfin (k + 1) (by omega) le_rfl
    rw [ha] at hs hx
    have hsa : sep fr q (v (k + 1)) ≤ a := by
      have : sep fr q (v (k + 1)) < a := by simpa [Val.lt] using hs
      exact this.le
    have hax : ((a : ℚ) : K) ≤ x := hx
    have hsx : ((sep fr q (v (k + 1)) : ℚ) : K) ≤ x :=
      le_trans (by exact_mod_cast hsa) hax
    have h1 : par fr q x ≤ par fr (v (k + 1)) x :=
      (par_le_iff fr _ _ (h.vlt (k + 1) le_rfl) x).2 hsx
    rcases Val.geK_or_leK_le (h.zmono (k + 1) le_rfl) x with hge | hle
    · exact le_trans h1 (h.env (k + 1) le_rfl x (by rw [ha]; exact hax) hge p hp)
    · exact h.above x hle p hp

theorem rowPopS_spec {K : Type} [LinearOrderedField K] (fr : Nat → ℚ) (q : Nat) (z : Nat → Val)
    (v : Nat → Nat) : ∀ k, PopInvW K fr q k z v →
      (rowPopS fr q z v k).1 ≤ k ∧ PopInvW K fr q (rowPopS fr q z v k).1 z v ∧
      (rowPopS fr q z v k).2 = sep fr q (v (rowPopS fr q z v k).1) ∧
      Val.lt (Val.fin (rowPopS fr q z v k).2) (z (rowPopS fr q z v k).1) = false := by
  intro k
  induction k with
  | zero =>
    intro h
    refine ⟨le_rfl, h, rfl, ?_⟩
    simp [rowPopS, h.z0, Val.lt]
  | succ k ih =>
    intro h
    by_cases hs : Val.lt (Val.fin (sep fr q (v (k + 1)))) (z (k + 1)) = true
    · have hr : rowPopS fr q z v (k + 1) = rowPopS fr q z v k := by simp [rowPopS, hs]
      rw [hr]
      obtain ⟨h1, h2, h3, h4⟩ := ih (h.popW hs)
      exact ⟨by omega, h2, h3, h4⟩
    · have hr : rowPopS fr q z v (k + 1) = (k + 1, sep fr q (v (k + 1))) := by simp [rowPopS, hs]
      rw [hr]
      exact ⟨le_rfl, h, rfl, by simpa using hs⟩

theorem BuildInvW.toPopW {K : Type} [LinearOrderedField K] {fr : Nat → ℚ} {q : Nat} {st : RowSt}
    (h : BuildInvW K fr q st) : PopInvW K fr (q + 1) st.k st.z st.v where
  v0 := h.v0
  vlt := by
    intro j hj
    rcases Nat.lt_or_eq_of_le hj with hlt | rfl
    · have := h.vmono j st.k hlt le_rfl
      rw [h.vtop] at this
      omega
    · rw [h.vtop]; omega
  vmono := h.vmono
  z0 := h.z0
  zfin := h.zfin
  zmono := h.zmono
  env := fun j hj x h1 h2 p hp => h.env j hj x h1 h2 p (by omega)
  above := by
    intro x hx
    rw [h.ztop] at hx
    exact absurd hx (by simp [Val.leK])

theorem BuildInvW.initW (K : Type) [LinearOrderedField K] (fr : Nat → ℚ) :
    BuildInvW K fr 0 rowInit where
  v0 := rfl
  vtop := rfl
  vmono := by intro i j hij hj; simp [rowInit] at hj; omega
  z0 := by simp [rowInit]
  zfin := by intro j h1 hj; simp [rowInit] at hj; omega
  ztop := by simp [rowInit]
  zmono := by
    intro j hj
    simp [rowInit] at hj
    subst hj
    simp [rowInit, Val.le]
  env := by
    intro j hj x _ _ p hp
    simp [rowInit] at hj
    subst hj
    have : p = 0 := by omega
    subst this
    simp [rowInit]

theorem PopInvW.pushW {K : Type} [LinearOrderedField K] {fr : Nat → ℚ} {q k : Nat}
    {z : Nat → Val} {v : Nat → Nat} {s : ℚ} (h : PopInvW K fr q k z v)
    (hs : s = sep fr q (v k)) (hle : Val.lt (Val.fin s) (z k) = false) :
    BuildInvW K fr q
      { k := k + 1
        z := Function.update (Function.update z (k + 1) (Val.fin s)) (k + 2) Val.pinf
        v := Function.update v (k + 1) q } := by
  have hzk : z k = Val.ninf ∨ ∃ a, z k = Val.fin a := by
    rcases Nat.eq_zero_or_pos k with rfl | hk
    · exact Or.inl h.z0
    · exact Or.inr (h.zfin k hk le_rfl)
  have hlt : Val.le (z k) (Val.fin s) = true := Val.le_of_lt_false s (z k) hzk hle
  have zold : ∀ j, j ≤ k →
      Function.update (Function.update z (k + 1) (Val.fin s)) (k + 2) Val.pinf j = z j := by
    intro j hj
    rw [Function.update_noteq (by omega), Function.update_noteq (by omega)]
  have znew : Function.update (Function.update z (k + 1) (Val.fin s)) (k + 2) Val.pinf (k + 1)
      = Val.fin s := by
    rw [Function.update_noteq (by omega), Function.update_same]
  have vold : ∀ j, j ≤ k → Function.update v (k + 1) q j = v j := by
    intro j hj
    rw [Function.update_noteq (by omega)]
  have hqk : ∀ x : K, x ≤ ((s : ℚ) : K) → par fr (v k) x ≤ par fr q x := by
    intro x hx
    exact (par_ge_iff fr _ _ (h.vlt k le_rfl) x).2 (by rw [← hs]; exact hx)
  refine
    { v0 := ?_, vtop := ?_, vmono := ?_, z0 := ?_, zfin := ?_, ztop := ?_, zmono := ?_, env := ?_ }
  · show Function.update v (k + 1) q 0 = 0
    rw [vold 0 (by omega)]; exact h.v0
  · show Function.update v (k + 1) q (k + 1) = q
    exact Function.update_same _ _ _
  · intro i j hij hj
    show Function.update v (k + 1) q i < Function.update v (k + 1) q j
    have hj' : j ≤ k + 1 := hj
    rw [vold i (by omega)]
    rcases Nat.lt_or_eq_of_le hj' with hjk | rfl
    · rw [vold j (by omega)]; exact h.vmono i j hij (by omega)
    · rw [Function.update_same]; exact h.vlt i (by omega)
  · show Function.update (Function.update z (k + 1) (Val.fin s)) (k + 2) Val.pinf 0 = Val.ninf
    rw [zold 0 (by omega)]; exact h.z0
  · intro j h1 hj
    have hj' : j ≤ k + 1 := hj
    show ∃ a, Function.update (Function.update z (k + 1) (Val.fin s)) (k + 2) Val.pinf j = Val.fin a
    rcases Nat.lt_or_eq_of_le hj' with hjk | rfl
    · rw [zold j (by omega)]; exact h.zfin j h1 (by omega)
    · exact ⟨s, znew⟩
  · show Function.update (Function.update z (k + 1) (Val.fin s)) (k + 2) Val.pinf (k + 1 + 1)
      = Val.pinf
    exact Function.update_same _ _ _
  · intro j hj
    have hj' : j ≤ k + 1 := hj
    show Val.le (Function.update (Function.update z (k + 1) (Val.fin s)) (k + 2) Val.pinf j)
      (Function.update (Function.update z (k + 1) (Val.fin s)) (k + 2) Val.pinf (j + 1)) = true
    rcases Nat.lt_or_eq_of_le hj' with hjk | rfl
    · rw [zold j (by omega)]
      rcases Nat.lt_or_eq_of_le (Nat.lt_succ_iff.mp hjk) with hjk' | rfl
      · rw [zold (j + 1) (by omega)]; exact h.zmono j (by omega)
      · rw [znew]; exact hlt
    · rw [znew, Function.update_same]; rfl
  · intro j hj x hlo hhi p hp
    have hj' : j ≤ k + 1 := hj
    change Val.leK (Function.update (Function.update z (k + 1) (Val.fin s)) (k + 2) Val.pinf j) x
      at hlo
    change Val.geK
      (Function.update (Function.update z (k + 1) (Val.fin s)) (k + 2) Val.pinf (j + 1)) x at hhi
    show par fr (Function.update v (k + 1) q j) x ≤ par fr p x
    rcases Nat.lt_or_eq_of_le hj' with hjk | rfl
    · -- an old piece
      have hjk' : j ≤ k := by omega
      rw [zold j hjk'] at hlo
      rw [vold j hjk']
      have hxs : x ≤ ((s : ℚ) : K) := by
        rcases Nat.lt_or_eq_of_le hjk' with hlt' | rfl
        · rw [zold (j + 1) (by omega)] at hhi
          have hk : Val.geK (z k) x := geK_chain_le z k h.zmono x (j + 1) hhi k (by omega) (by omega)
          have := Val.geK_mono_le hlt x hk
          exact this
        · rw [znew] at hhi; exact hhi
      have hvq : par fr (v k) x ≤ par fr q x := hqk x hxs
      -- the old piece is minimal among `p < q` wherever it was active
      have hold : ∀ p', p' < q → par fr (v j) x ≤ par fr p' x := by
        intro p' hp'
        rcases Nat.lt_or_eq_of_le hjk' with hlt' | rfl
        · rw [zold (j + 1) (by omega)] at hhi
          exact h.env j hjk' x hlo hhi p' hp'
        · rcases Val.geK_or_leK_le (h.zmono j le_rfl) x with hge | hle'
          · exact h.env j le_rfl x hlo hge p' hp'
          · exact le_trans hvq (h.above x hle' p' hp')
      rcases Nat.lt_or_eq_of_le hp with hpq | rfl
      · exact hold p hpq
      · rcases Nat.lt_or_eq_of_le hjk' with hlt' | rfl
        · exact le_trans (hold (v k) (h.vlt k le_rfl)) hvq
        · exact hvq
    · -- the new piece
      rw [znew] at hlo
      rw [Function.update_same]
      have hsx : ((s : ℚ) : K) ≤ x := hlo
      rcases Nat.lt_or_eq_of_le hp with hpq | rfl
      · have h1 : par fr q x ≤ par fr (v k) x :=
          (par_le_iff fr _ _ (h.vlt k le_rfl) x).2 (by rw [← hs]; exact hsx)
        rcases Val.geK_or_leK_le (h.zmono k le_rfl) x with hge | hle'
        · exact le_trans h1 (h.env k le_rfl x (Val.leK_mono_le hlt x hsx) hge p hpq)
        · exact h.above x hle' p hpq
      · exact le_rfl

theorem buildInvS (K : Type) [LinearOrderedField K] (fr : Nat → ℚ) :
    ∀ q, BuildInvW K fr q (rowStackS fr q) := by
  intro q
  induction q with
  | zero => exact BuildInvW.initW K fr
  | succ q ih =>
    obtain ⟨_, h2, h3, h4⟩ := rowPopS_spec (K := K) fr (q + 1) (rowStackS fr q).z
      (rowStackS fr q).v (rowStackS fr q).k ih.toPopW
    exact h2.pushW h3 h4

theorem BuildInvW.v_leW {K : Type} [LinearOrderedField K] {fr : Nat → ℚ} {q : Nat} {st : RowSt}
    (h : BuildInvW K fr q st) (j : Nat) (hj : j ≤ st.k) : st.v j ≤ q := by
  have := h.toPopW.vlt j hj
  omega

theorem BuildInvW.k_leW {K : Type} [LinearOrderedField K] {fr : Nat → ℚ} {q : Nat} {st : RowSt}
    (h : BuildInvW K fr q st) : st.k ≤ q := by
  have hmono : ∀ j, j ≤ st.k → j ≤ st.v j := by
    intro j
    induction j with
    | zero => intro _; exact Nat.zero_le _
    | succ j ih =>
      intro hj
      have h1 := ih (by omega)
      have h2 := h.vmono j (j + 1) (by omega) hj
      omega
  have := hmono st.k le_rfl
  rw [h.vtop] at this
  exact this

/-- Every breakpoint of the active prefix is ordered against every point. -/
theorem BuildInvW.z_casesW {K : Type} [LinearOrderedField K] {fr : Nat → ℚ} {q : Nat} {st : RowSt}
    (h : BuildInvW K fr q st) (j : Nat) (hj : j ≤ st.k) :
    (∃ a, st.z (j + 1) = Val.fin a) ∨ st.z (j + 1) = Val.pinf := by
  rcases Nat.lt_or_eq_of_le hj with hlt | rfl
  · exact Or.inl (h.zfin (j + 1) (by omega) (by omega))
  · exact Or.inr h.ztop

theorem rowCursorW_spec {K : Type} [LinearOrderedField K] {fr : Nat → ℚ} {n : Nat} {st : RowSt}
    (h : BuildInvW K fr n st) (q : Nat) : ∀ m k, k + m = st.k →
      Val.leK (st.z k) ((q : ℕ) : K) →
      k ≤ rowCursor st.z q m k ∧ rowCursor st.z q m k ≤ st.k ∧
      Val.leK (st.z (rowCursor st.z q m k)) ((q : ℕ) : K) ∧
      Val.geK (st.z (rowCursor st.z q m k + 1)) ((q : ℕ) : K) := by
  intro m
  induction m with
  | zero =>
    intro k hk hle
    have : k = st.k := by omega
    subst this
    refine ⟨le_rfl, le_rfl, hle, ?_⟩
    simp [rowCursor, h.ztop, Val.geK]
  | succ m ih =>
    intro k hk hle
    by_cases hlt : Val.lt (st.z (k + 1)) (Val.fin (q : ℚ)) = true
    · have hr : rowCursor st.z q (m + 1) k = rowCursor st.z q m (k + 1) := by
        simp [rowCursor, hlt]
      rw [hr]
      have hle' : Val.leK (st.z (k + 1)) ((q : ℕ) : K) := by
        apply Val.leK_of_lt_fin hlt
        simp
      obtain ⟨h1, h2, h3, h4⟩ := ih (k + 1) (by omega) hle'
      exact ⟨by omega, h2, h3, h4⟩
    · have hr : rowCursor st.z q (m + 1) k = k := by simp [rowCursor, hlt]
      rw [hr]
      refine ⟨le_rfl, by omega, hle, ?_⟩
      rcases h.z_casesW k (by omega) with ⟨a, ha⟩ | hp
      · rw [ha] at hlt ⊢
        simp only [Val.lt, decide_eq_true_eq, not_lt] at hlt
        show ((q : ℕ) : K) ≤ ((a : ℚ) : K)
        exact_mod_cast hlt
      · rw [hp]; trivial

theorem rowCurW_spec {K : Type} [LinearOrderedField K] {fr : Nat → ℚ} {n : Nat} {st : RowSt}
    (h : BuildInvW K fr n st) : ∀ q,
      rowCur st q ≤ st.k ∧ Val.leK (st.z (rowCur st q)) ((q : ℕ) : K) ∧
      Val.geK (st.z (rowCur st q + 1)) ((q : ℕ) : K) := by
  intro q
  induction q with
  | zero =>
    have h0 : Val.leK (st.z 0) (((0 : ℕ) : ℕ) : K) := by rw [h.z0]; trivial
    obtain ⟨_, h2, h3, h4⟩ := rowCursorW_spec h 0 st.k 0 (by omega) h0
    exact ⟨h2, h3, h4⟩
  | succ q ih =>
    obtain ⟨i1, i2, _⟩ := ih
    have h0 : Val.leK (st.z (rowCur st q)) (((q + 1 : ℕ) : ℕ) : K) :=
      Val.leK_up i2 (by push_cast; linarith)
    obtain ⟨_, h2, h3, h4⟩ :=
      rowCursorW_spec h (q + 1) (st.k - rowCur st q) (rowCur st q) (by omega) h0
    exact ⟨h2, h3, h4⟩

theorem rowBasinW_min {K : Type} [LinearOrderedField K] {fr : Nat → ℚ} {n : Nat} {st : RowSt}
    (h : BuildInvW K fr n st) (q p : Nat) (hp : p ≤ n) :
    par fr (rowBasin st q) ((q : ℕ) : K) ≤ par fr p ((q : ℕ) : K) := by
  obtain ⟨h1, h2, h3⟩ := rowCurW_spec h q
  exact h.env (rowCur st q) h1 _ h2 h3 p hp

theorem rowBasinW_le {K : Type} [LinearOrderedField K] {fr : Nat → ℚ} {n : Nat} {st : RowSt}
    (h : BuildInvW K fr n st) (q : Nat) : rowBasin st q ≤ n :=
  h.v_leW _ (rowCurW_spec h q).1

theorem rowOutW_min {fr : Nat → ℚ} {n : Nat} {st : RowSt} (h : BuildInvW ℚ fr n st) (q p : Nat)
    (hp : p ≤ n) : rowOut fr st q ≤ ((q : ℚ) - (p : ℚ)) ^ 2 + fr p := by
  have := rowBasinW_min h q p hp
  rw [← rowOut_eq_par] at this
  simpa [par] using this

theorem rowCursorW_strict {K : Type} [LinearOrderedField K] {fr : Nat → ℚ} {n : Nat} {st : RowSt}
    (h : BuildInvW K fr n st) (q : Nat) : ∀ m k, k + m = st.k →
      (k = 0 ∨ ∃ a : ℚ, st.z k = Val.fin a ∧ a < (q : ℚ)) →
      rowCursor st.z q m k = 0 ∨
        ∃ a : ℚ, st.z (rowCursor st.z q m k) = Val.fin a ∧ a < (q : ℚ) := by
  intro m
  induction m with
  | zero => intro k _ hk; exact hk
  | succ m ih =>
    intro k hkm hk
    by_cases hlt : Val.lt (st.z (k + 1)) (Val.fin (q : ℚ)) = true
    · have hr : rowCursor st.z q (m + 1) k = rowCursor st.z q m (k + 1) := by
        simp [rowCursor, hlt]
      rw [hr]
      apply ih (k + 1) (by omega)
      right
      rcases h.z_casesW k (by omega) with ⟨a, ha⟩ | hp
      · refine ⟨a, ha, ?_⟩
        rw [ha] at hlt
        simpa [Val.lt] using hlt
      · rw [hp] at hlt
        simp [Val.lt] at hlt
    · have hr : rowCursor st.z q (m + 1) k = k := by simp [rowCursor, hlt]
      rw [hr]
      exact hk

theorem rowCurW_strict {K : Type} [LinearOrderedField K] {fr : Nat → ℚ} {n : Nat} {st : RowSt}
    (h : BuildInvW K fr n st) : ∀ q,
      rowCur st q = 0 ∨ ∃ a : ℚ, st.z (rowCur st q) = Val.fin a ∧ a < (q : ℚ) := by
  intro q
  induction q with
  | zero => exact rowCursorW_strict h 0 st.k 0 (by omega) (Or.inl rfl)
  | succ q ih =>
    have hle := (rowCurW_spec h q).1
    apply rowCursorW_strict h (q + 1) (st.k - rowCur st q) (rowCur st q) (by omega)
    rcases ih with h0 | ⟨a, ha, hlt⟩
    · exact Or.inl h0
    · refine Or.inr ⟨a, ha, ?_⟩
      push_cast
      linarith

/-- The basin of the row model is the least position attaining the minimum. -/
theorem rowBasinW_least {fr : Nat → ℚ} {n : Nat} {st : RowSt} (h : BuildInvW ℚ fr n st)
    (q p' : Nat) (hp : p' < rowBasin st q) :
    par fr (rowBasin st q) ((q : ℕ) : ℚ) < par fr p' ((q : ℕ) : ℚ) := by
  by_contra hcon
  have hle : par fr p' ((q : ℕ) : ℚ) ≤ par fr (rowBasin st q) ((q : ℕ) : ℚ) := not_lt.mp hcon
  have hq : ((q : ℕ) : ℚ) ≤ ((sep fr (rowBasin st q) p' : ℚ) : ℚ) :=
    (par_ge_iff fr p' (rowBasin st q) hp _).1 hle
  obtain ⟨hc, hlo, hhi⟩ := rowCurW_spec h q
  -- a point of the piece strictly left of `q`
  obtain ⟨x, hxlo, hxq⟩ : ∃ x : ℚ, Val.leK (st.z (rowCur st q)) x ∧ x < ((q : ℕ) : ℚ) := by
    rcases rowCurW_strict h q with h0 | ⟨a, ha, hlt⟩
    · refine ⟨(q : ℚ) - 1, ?_, by linarith⟩
      rw [h0, h.z0]
      trivial
    · refine ⟨a, ?_, hlt⟩
      rw [ha]
      exact le_refl _
  have hxhi : Val.geK (st.z (rowCur st q + 1)) x := Val.geK_down hhi hxq.le
  have henv := h.env (rowCur st q) hc x hxlo hxhi p' (by
    have := h.v_leW _ hc
    unfold rowBasin at hp
    omega)
  have hsx : ((sep fr (rowBasin st q) p' : ℚ) : ℚ) ≤ x :=
    (par_le_iff fr p' (rowBasin st q) hp x).1 henv
  linarith

end BasinFinder

/-! ## The strict algorithm computes its row model -/

namespace BasinFinder

theorem popLoopS_spec (fr : Nat → ℚ) (f z : List Val) (v : List Int) (off1 off2 d n : Nat)
    (zr : Nat → Val) (vr : Nat → Nat) (hf : RowIs f off1 d n (fun j => Val.fin (fr j)))
    (q : Nat) (hq : q < n) (hz0 : zr 0 = Val.ninf) :
    ∀ (kn fuel : Nat) (k : Int), k = (kn : Int) → kn < fuel → (∀ j, j ≤ kn → vr j < q) →
      RowIs z off2 d (kn + 1) zr → RowIs v off1 d (kn + 1) (fun j => ((vr j : Nat) : Int)) →
      popLoopWith Val.lt (d : Int) (off1 : Int) (off2 : Int) f z v (q : Int) fuel k
          (Val.fin (sep fr q (vr kn))) =
        .ok (((rowPopS fr q zr vr kn).1 : Int), Val.fin (rowPopS fr q zr vr kn).2) := by
  intro kn
  induction kn with
  | zero =>
    intro fuel k hk hfuel _ hz _
    subst hk
    obtain ⟨fuel, rfl⟩ : ∃ m, fuel = m + 1 := ⟨fuel - 1, by omega⟩
    have e1 := row_rd .z hz 0 (by omega) _ (idx_cast off2 0 d)
    simp only [popLoopWith, e1, hz0, rowPopS, Val.lt]
    simp
  | succ kn ih =>
    intro fuel k hk hfuel hvlt hz hv
    subst hk
    obtain ⟨fuel, rfl⟩ : ∃ m, fuel = m + 1 := ⟨fuel - 1, by omega⟩
    have e1 := row_rd .z hz (kn + 1) (by omega) _ (idx_cast off2 (kn + 1) d)
    have hk1 : ((kn + 1 : ℕ) : Int) - 1 = (kn : Int) := by push_cast; ring
    have e2 := intersect_spec fr f v off1 d n (kn + 1 + 1) vr hf hv q kn hq (by omega)
      (hvlt kn (by omega)) _ hk1
    have e3 := ih fuel _ hk1 (by omega) (fun j hj => hvlt j (by omega)) (hz.mono (by omega))
      (hv.mono (by omega))
    by_cases hs : Val.lt (Val.fin (sep fr q (vr (kn + 1)))) (zr (kn + 1)) = true
    · simp only [popLoopWith, e1, hs, if_true, e2, e3, rowPopS]
    · simp only [popLoopWith, e1, hs, rowPopS]
      simp

theorem buildStepS_spec (fr : Nat → ℚ) (f : List Val) (off1 off2 d n : Nat) (hd : 0 < d)
    (hf : RowIs f off1 d n (fun j => Val.fin (fr j))) (z0 : List Val) (v0 : List Int)
    (q : Nat) (hq : q + 1 < n) (S : Int × List Val × List Int)
    (hS : BuildRelS fr off1 off2 d n z0 v0 q S) :
    ∃ S1, buildStepWith Val.lt (d : Int) (off1 : Int) (off2 : Int) f ((q + 1 : ℕ) : Int) S = .ok S1 ∧
      BuildRelS fr off1 off2 d n z0 v0 (q + 1) S1 := by
  obtain ⟨k, z, v⟩ := S
  obtain ⟨hk, hzr, hzo, hvr, hvo⟩ := hS
  simp only at hk hzr hzo hvr hvo
  have inv := buildInvS ℚ fr q
  have hkq : (rowStackS fr q).k ≤ q := inv.k_leW
  have hpop := rowPopS_spec (K := ℚ) fr (q + 1) (rowStackS fr q).z (rowStackS fr q).v
    (rowStackS fr q).k inv.toPopW
  obtain ⟨hk1, -, -, -⟩ := hpop
  have e1 := intersect_spec fr f v off1 d n n _ hf hvr (q + 1) (rowStackS fr q).k hq (by omega)
    (inv.toPopW.vlt _ le_rfl) k hk
  have hvlen : (rowStackS fr q).k < v.length + 1 := by
    have := hvr.inRow (rowStackS fr q).k (by omega)
    have h2 : (rowStackS fr q).k ≤ (rowStackS fr q).k * d := Nat.le_mul_of_pos_right _ hd
    omega
  have e2 := popLoopS_spec fr f z v off1 off2 d n _ _ hf (q + 1) hq inv.z0 (rowStackS fr q).k
    (v.length + 1) k hk hvlen (fun j hj => inv.toPopW.vlt j hj) (hzr.mono (by omega))
    (hvr.mono (by omega))
  set r := rowPopS fr (q + 1) (rowStackS fr q).z (rowStackS fr q).v (rowStackS fr q).k with hr
  obtain ⟨w1, w2, w3, w4⟩ := row_wr .v hd hvr hvo hvr.inRow (r.1 + 1) (by omega)
    ((off1 : Int) + ((r.1 : Int) + 1) * (d : Int)) (by push_cast; ring) ((q + 1 : ℕ) : Int)
  obtain ⟨x1, x2, x3, x4⟩ := row_wr .z hd hzr hzo hzr.inRow (r.1 + 1) (by omega)
    ((off2 : Int) + ((r.1 : Int) + 1) * (d : Int)) (by push_cast; ring) (Val.fin r.2)
  obtain ⟨y1, y2, y3, -⟩ := row_wr .z hd x2 x3 x4 (r.1 + 2) (by omega)
    ((off2 : Int) + ((r.1 : Int) + 1) * (d : Int) + (d : Int)) (by push_cast; ring) verybig
  refine ⟨(((r.1 + 1 : ℕ) : Int),
    (z.set (off2 + (r.1 + 1) * d) (Val.fin r.2)).set (off2 + (r.1 + 2) * d) verybig,
    v.set (off1 + (r.1 + 1) * d) ((q + 1 : ℕ) : Int)), ?_, ?_⟩
  · simp only [buildStepWith, e1, e2, w1, x1, y1]
    simp
  · refine ⟨rfl, ?_, y3, ?_, w3⟩
    · exact y2
    · exact w2.congr (fun j _ => cast_update _ _ _ j)

theorem buildSweepToS_spec (fr : Nat → ℚ) (f : List Val) (off1 off2 d n m : Nat) (hd : 0 < d)
    (hn : 1 ≤ n) (hm : m ≤ n - 1) (hf : RowIs f off1 d n (fun j => Val.fin (fr j)))
    (z0 z : List Val) (v0 v : List Int) (hzr : RowIs z off2 d (n + 1) (fun _ => Val.fin 0))
    (hzo : SameOutside z0 z off2 d (n + 1)) (hvr : RowIs v off1 d n (fun _ => (0 : Int)))
    (hvo : SameOutside v0 v off1 d n) :
    ∃ S, buildSweepToWith Val.lt m (d : Int) (off1 : Int) (off2 : Int) f z v = .ok S ∧
      BuildRelS fr off1 off2 d n z0 v0 m S := by
  obtain ⟨x1, x2, x3, x4⟩ := row_wr .z hd hzr hzo hzr.inRow 0 (by omega)
    ((off2 : Int) + 0) (by push_cast; ring) (Val.neg verybig)
  obtain ⟨y1, y2, y3, -⟩ := row_wr .z hd x2 x3 x4 1 (by omega)
    ((off2 : Int) + (d : Int)) (by push_cast; ring) verybig
  have hloop := forLoop_inv (buildStepWith Val.lt (d : Int) (off1 : Int) (off2 : Int) f)
    (fun i S => BuildRelS fr off1 off2 d n z0 v0 (i - 1) S) m 1
    (by
      intro i S hi1 hi2 hS
      obtain ⟨q, rfl⟩ : ∃ q, i = q + 1 := ⟨i - 1, by omega⟩
      exact buildStepS_spec fr f off1 off2 d n hd hf z0 v0 q (by omega) S hS)
    (0, (z.set (off2 + 0 * d) (Val.neg verybig)).set (off2 + 1 * d) verybig, v)
    ⟨rfl, y2, y3, hvr, hvo⟩
  obtain ⟨S, hrun, hS⟩ := hloop
  refine ⟨S, ?_, ?_⟩
  · simp only [buildSweepToWith, x1, y1]
    simpa using hrun
  · have : 1 + m - 1 = m := by omega
    rw [this] at hS
    exact hS

theorem rowBuildUpToS_spec (fr : Nat → ℚ) (f : List Val) (n1 n2 i0 i2 m : Nat) (hd : 0 < n2)
    (hn : 1 ≤ n1) (hm : m ≤ n1 - 1)
    (hf : RowIs f (i0 * n1 * n2 + i2) n2 n1 (fun j => Val.fin (fr j)))
    (z : List Val) (v : List Int) (hz : InRow z (i0 * (n1 + 1) * n2 + i2) n2 (n1 + 1))
    (hv : InRow v (i0 * n1 * n2 + i2) n2 n1) :
    ∃ S, rowBuildUpToWith Val.lt m (n1 : Int) (n2 : Int) f (i0 : Int) (i2 : Int) z v = .ok S ∧
      BuildRelS fr (i0 * n1 * n2 + i2) (i0 * (n1 + 1) * n2 + i2) n2 n1 z v m S := by
  have ho1 : (i0 : Int) * (n1 : Int) * (n2 : Int) + (i2 : Int) = ((i0 * n1 * n2 + i2 : ℕ) : Int) := by
    push_cast; rfl
  have ho2 : (i0 : Int) * ((n1 : Int) + 1) * (n2 : Int) + (i2 : Int) =
      ((i0 * (n1 + 1) * n2 + i2 : ℕ) : Int) := by
    push_cast; rfl
  obtain ⟨z1, v1, hinit, h1, h2, h3, h4⟩ :=
    initVZ_spec n1 n2 (i0 * n1 * n2 + i2) (i0 * (n1 + 1) * n2 + i2) hd z v hz hv
  obtain ⟨S, hrun, hS⟩ := buildSweepToS_spec fr f _ _ n2 n1 m hd hn hm hf z z1 v v1 h1 h2 h3 h4
  refine ⟨S, ?_, hS⟩
  simp only [rowBuildUpToWith, ho1, ho2, hinit, hrun]

theorem rowBuildS_spec (fr : Nat → ℚ) (f : List Val) (n1 n2 i0 i2 : Nat) (hd : 0 < n2)
    (hn : 1 ≤ n1) (hf : RowIs f (i0 * n1 * n2 + i2) n2 n1 (fun j => Val.fin (fr j)))
    (z : List Val) (v : List Int) (hz : InRow z (i0 * (n1 + 1) * n2 + i2) n2 (n1 + 1))
    (hv : InRow v (i0 * n1 * n2 + i2) n2 n1) :
    ∃ S, rowBuildWith Val.lt (n1 : Int) (n2 : Int) f (i0 : Int) (i2 : Int) z v = .ok S ∧
      BuildRelS fr (i0 * n1 * n2 + i2) (i0 * (n1 + 1) * n2 + i2) n2 n1 z v (n1 - 1) S := by
  have hcnt : ((n1 : Int) - 1).toNat = n1 - 1 := by omega
  unfold rowBuildWith
  rw [hcnt]
  exact rowBuildUpToS_spec fr f n1 n2 i0 i2 (n1 - 1) hd hn le_rfl hf z v hz hv

theorem evalStepS_spec (fr : Nat → ℚ) (f z : List Val) (v : List Int) (off1 off2 d n : Nat)
    (hd : 0 < d) (hn : 1 ≤ n) (hf : RowIs f off1 d n (fun j => Val.fin (fr j)))
    (hz : RowIs z off2 d (n + 1) (rowStackS fr (n - 1)).z)
    (hv : RowIs v off1 d n (fun j => (((rowStackS fr (n - 1)).v j : Nat) : Int)))
    (out0 : List Val) (basins0 : List Int) (hout0 : InRow out0 off1 d n)
    (hbasins0 : InRow basins0 off1 d n) (q : Nat) (hq : q < n)
    (S : Int × List Val × List Int)
    (hS : EvalRel fr (rowStackS fr (n - 1)) off1 d n out0 basins0 q S) :
    ∃ S1, evalStep (d : Int) (off1 : Int) (off2 : Int) f z v (q : Int) S = .ok S1 ∧
      EvalRel fr (rowStackS fr (n - 1)) off1 d n out0 basins0 (q + 1) S1 := by
  obtain ⟨k, out, basins⟩ := S
  obtain ⟨hk, hor, hoo, hbr, hbo⟩ := hS
  simp only at hk hor hoo hbr hbo
  have inv := buildInvS ℚ fr (n - 1)
  have hkn : (rowStackS fr (n - 1)).k ≤ n - 1 := inv.k_leW
  obtain ⟨hc1, -, -⟩ := rowCurW_spec inv q
  have hprev : rowCurPrev (rowStackS fr (n - 1)) q ≤ (rowStackS fr (n - 1)).k := by
    cases q with
    | zero => exact Nat.zero_le _
    | succ q => exact (rowCurW_spec inv q).1
  have hzlen : n + 1 ≤ z.length := by
    have := hz.inRow n (by omega)
    have h2 : n ≤ n * d := Nat.le_mul_of_pos_right _ hd
    omega
  have e1 := cursorLoop_spec z off2 d n _ (rowStackS fr (n - 1)).k hz (by omega) inv.ztop q
    ((rowStackS fr (n - 1)).k - rowCurPrev (rowStackS fr (n - 1)) q)
    (rowCurPrev (rowStackS fr (n - 1)) q) (z.length + 1) k hk (by omega) (by omega)
  rw [← rowCur_eq] at e1
  have e2 := row_rd .v hv (rowCur (rowStackS fr (n - 1)) q) (by omega) _ (idx_cast off1 _ d)
  have hb : rowBasin (rowStackS fr (n - 1)) q ≤ n - 1 := rowBasinW_le inv q
  have e3 := wr_ok .basins basins _ _ (((rowBasin (rowStackS fr (n - 1)) q : Nat)) : Int)
    (idx_cast off1 q d) (hbo.keeps_inRow hbasins0 q hq)
  have e4 := row_rd .f hf (rowBasin (rowStackS fr (n - 1)) q) (by omega) _ (idx_cast off1 _ d)
  have e5 := wr_ok .out out _ _ (Val.fin (rowOut fr (rowStackS fr (n - 1)) q))
    (idx_cast off1 q d) (hoo.keeps_inRow hout0 q hq)
  have hval : Val.add (Val.ofInt (((q : Int) - ((rowBasin (rowStackS fr (n - 1)) q : Nat) : Int)) *
      ((q : Int) - ((rowBasin (rowStackS fr (n - 1)) q : Nat) : Int))))
      (Val.fin (fr (rowBasin (rowStackS fr (n - 1)) q))) =
      Val.fin (rowOut fr (rowStackS fr (n - 1)) q) := by
    simp only [Val.add, Val.ofInt, rowOut]
    push_cast
    rfl
  refine ⟨(((rowCur (rowStackS fr (n - 1)) q : Nat) : Int),
    out.set (off1 + q * d) (Val.fin (rowOut fr (rowStackS fr (n - 1)) q)),
    basins.set (off1 + q * d) (((rowBasin (rowStackS fr (n - 1)) q : Nat)) : Int)), ?_, ?_⟩
  · simp only [evalStep, e1]
    have e2' : rd BufId.v v ((off1 : Int) + ((rowCur (rowStackS fr (n - 1)) q : Nat) : Int) * (d : Int))
        = .ok (((rowBasin (rowStackS fr (n - 1)) q : Nat)) : Int) := e2
    simp only [e2', e3, e4, hval, e5]
  · refine ⟨rfl, ?_, hoo.set_slot q hq _, ?_, hbo.set_slot q hq _⟩
    · exact RowIs.set_extend (r := fun j => Val.fin (rowOut fr (rowStackS fr (n - 1)) j)) hd hor
        (hoo.keeps_inRow hout0 q hq)
    · exact RowIs.set_extend
        (r := fun j => (((rowBasin (rowStackS fr (n - 1)) j : Nat)) : Int)) hd hbr
        (hbo.keeps_inRow hbasins0 q hq)

theorem evalSweepS_spec (fr : Nat → ℚ) (f z : List Val) (v : List Int) (off1 off2 d n : Nat)
    (hd : 0 < d) (hn : 1 ≤ n) (hf : RowIs f off1 d n (fun j => Val.fin (fr j)))
    (hz : RowIs z off2 d (n + 1) (rowStackS fr (n - 1)).z)
    (hv : RowIs v off1 d n (fun j => (((rowStackS fr (n - 1)).v j : Nat) : Int)))
    (out0 : List Val) (basins0 : List Int) (hout0 : InRow out0 off1 d n)
    (hbasins0 : InRow basins0 off1 d n) :
    ∃ out1 basins1, evalSweep (n : Int) (d : Int) (off1 : Int) (off2 : Int) f z v out0 basins0 =
        .ok (out1, basins1) ∧
      RowIs out1 off1 d n (fun j => Val.fin (rowOut fr (rowStackS fr (n - 1)) j)) ∧
      SameOutside out0 out1 off1 d n ∧
      RowIs basins1 off1 d n (fun j => ((rowBasin (rowStackS fr (n - 1)) j : Nat) : Int)) ∧
      SameOutside basins0 basins1 off1 d n := by
  have hloop := forLoop_inv (evalStep (d : Int) (off1 : Int) (off2 : Int) f z v)
    (fun i S => EvalRel fr (rowStackS fr (n - 1)) off1 d n out0 basins0 i S) n 0
    (by
      intro i S _ hi hS
      exact evalStepS_spec fr f z v off1 off2 d n hd hn hf hz hv out0 basins0 hout0 hbasins0 i
        (by omega) S hS)
    (0, out0, basins0)
    ⟨rfl, fun j hj => absurd hj (Nat.not_lt_zero j), SameOutside.refl _ _ _ _,
      fun j hj => absurd hj (Nat.not_lt_zero j), SameOutside.refl _ _ _ _⟩
  obtain ⟨⟨k, out1, basins1⟩, hrun, hS⟩ := hloop
  obtain ⟨-, h1, h2, h3, h4⟩ := hS
  simp only [Nat.zero_add] at h1 h3
  refine ⟨out1, basins1, ?_, h1, h2, h3, h4⟩
  simp only [Nat.cast_zero] at hrun
  simp only [evalSweep, sub_zero, Int.toNat_ofNat, hrun]

theorem rowBodyS_spec (fr : Nat → ℚ) (f : List Val) (n1 n2 i0 i2 : Nat) (hd : 0 < n2)
    (hn : 1 ≤ n1) (hf : RowIs f (i0 * n1 * n2 + i2) n2 n1 (fun j => Val.fin (fr j)))
    (b : Bufs) (hz : InRow b.z (i0 * (n1 + 1) * n2 + i2) n2 (n1 + 1))
    (hv : InRow b.v (i0 * n1 * n2 + i2) n2 n1) (hout : InRow b.out (i0 * n1 * n2 + i2) n2 n1)
    (hbasins : InRow b.basins (i0 * n1 * n2 + i2) n2 n1) :
    ∃ b1, rowBodyWith Val.lt (n1 : Int) (n2 : Int) f (i0 : Int) (i2 : Int) b = .ok b1 ∧
      rowBuildWith Val.lt (n1 : Int) (n2 : Int) f (i0 : Int) (i2 : Int) b.z b.v =
        .ok ((((rowStackS fr (n1 - 1)).k : Nat) : Int), b1.z, b1.v) ∧
      RowDoneS fr n1 n2 i0 i2 b1 ∧ Frame n1 n2 i0 i2 b b1 := by
  have ho1 : (i0 : Int) * (n1 : Int) * (n2 : Int) + (i2 : Int) = ((i0 * n1 * n2 + i2 : ℕ) : Int) := by
    push_cast; rfl
  have ho2 : (i0 : Int) * ((n1 : Int) + 1) * (n2 : Int) + (i2 : Int) =
      ((i0 * (n1 + 1) * n2 + i2 : ℕ) : Int) := by
    push_cast; rfl
  obtain ⟨⟨k, z1, v1⟩, hbuild, hk, hzr, hzo, hvr, hvo⟩ :=
    rowBuildS_spec fr f n1 n2 i0 i2 hd hn hf b.z b.v hz hv
  simp only at hk hzr hzo hvr hvo
  obtain ⟨out1, basins1, heval, h1, h2, h3, h4⟩ :=
    evalSweepS_spec fr f z1 v1 (i0 * n1 * n2 + i2) (i0 * (n1 + 1) * n2 + i2) n2 n1 hd hn hf hzr hvr
      b.out b.basins hout hbasins
  refine ⟨⟨out1, z1, v1, basins1⟩, ?_, ?_, ⟨hzr, hvr, h1, h3⟩, ⟨hzo, hvo, h2, h4⟩⟩
  · simp only [rowBodyWith, hbuild, ho1, ho2, heval]
  · rw [hbuild, hk]

theorem RowDoneS.of_frameS {fr : Nat → ℚ} {n1 n2 i0 i2 i0' i2' : Nat} {b b1 : Bufs}
    (h : RowDoneS fr n1 n2 i0' i2' b) (hf : Frame n1 n2 i0 i2 b b1) (hi : i2 < n2)
    (hi' : i2' < n2) (hne : ¬(i0 = i0' ∧ i2 = i2')) : RowDoneS fr n1 n2 i0' i2' b1 :=
  ⟨h.z_row.of_sameOutside hf.z_out hi hi' hne, h.v_row.of_sameOutside hf.v_out hi hi' hne,
    h.out_row.of_sameOutside hf.out_out hi hi' hne,
    h.basins_row.of_sameOutside hf.basins_out hi hi' hne⟩

theorem rowLoopS_spec (f : List Val) (n0 n1 n2 i0 : Nat) (h0 : i0 < n0) (hn : 1 ≤ n1)
    (frow : Nat → Nat → Nat → Nat → Nat → ℚ)
    (hfr : ∀ a c, a < n0 → c < n2 →
      RowIs f (a * n1 * n2 + c) n2 n1 (fun j => Val.fin (frow n1 n2 a c j)))
    (b : Bufs) (hb : Shaped n0 n1 n2 b)
    (hdone : ∀ a c, a < i0 → c < n2 → RowDoneS (frow n1 n2 a c) n1 n2 a c b) :
    ∃ b1, forLoop (fun i2 b1 => rowBodyWith Val.lt (n1 : Int) (n2 : Int) f (i0 : Int) i2 b1) n2 0 b = .ok b1 ∧
      Shaped n0 n1 n2 b1 ∧
      ∀ a c, a < i0 + 1 → c < n2 → RowDoneS (frow n1 n2 a c) n1 n2 a c b1 := by
  have hloop := forLoop_inv (fun i2 b1 => rowBodyWith Val.lt (n1 : Int) (n2 : Int) f (i0 : Int) i2 b1)
    (fun i2 B => Shaped n0 n1 n2 B ∧
      (∀ a c, a < i0 → c < n2 → RowDoneS (frow n1 n2 a c) n1 n2 a c B) ∧
      (∀ c, c < i2 → RowDoneS (frow n1 n2 i0 c) n1 n2 i0 c B)) n2 0
    (by
      rintro i2 B _ hi2 ⟨hs, hprev, hcur⟩
      have hi2' : i2 < n2 := by omega
      obtain ⟨B1, hrun, -, hrow, hframe⟩ := rowBodyS_spec (frow n1 n2 i0 i2) f n1 n2 i0 i2
        (by omega) hn (hfr i0 i2 h0 hi2') B
        (inRow_of_length B.z n0 (n1 + 1) n2 i0 i2 h0 hi2' hs.z_len)
        (inRow_of_length B.v n0 n1 n2 i0 i2 h0 hi2' hs.v_len)
        (inRow_of_length B.out n0 n1 n2 i0 i2 h0 hi2' hs.out_len)
        (inRow_of_length B.basins n0 n1 n2 i0 i2 h0 hi2' hs.basins_len)
      refine ⟨B1, hrun, hs.frame_keeps hframe, ?_, ?_⟩
      · intro a c ha hc
        exact (hprev a c ha hc).of_frameS hframe hi2' hc (by omega)
      · intro c hc
        rcases Nat.lt_or_eq_of_le (Nat.lt_succ_iff.mp hc) with hlt | rfl
        · exact (hcur c hlt).of_frameS hframe hi2' (by omega) (by omega)
        · exact hrow)
    b ⟨hb, hdone, fun c hc => absurd hc (Nat.not_lt_zero c)⟩
  obtain ⟨B, hrun, hs, hprev, hcur⟩ := hloop
  simp only [Nat.zero_add] at hcur
  simp only [Nat.cast_zero] at hrun
  refine ⟨B, hrun, hs, ?_⟩
  intro a c ha hc
  rcases Nat.lt_or_eq_of_le (Nat.lt_succ_iff.mp ha) with hlt | rfl
  · exact hprev a c hlt hc
  · exact hcur c hc

theorem functorS_spec_gen (f : List Val) (n0 n1 n2 : Nat) (hn : 1 ≤ n1)
    (frow : Nat → Nat → Nat → Nat → Nat → ℚ)
    (hfr : ∀ a c, a < n0 → c < n2 →
      RowIs f (a * n1 * n2 + c) n2 n1 (fun j => Val.fin (frow n1 n2 a c j)))
    (b : Bufs) (hb : Shaped n0 n1 n2 b) :
    ∃ b1, BasinFinderStrict (n0 : Int) (n1 : Int) (n2 : Int) f b = .ok b1 ∧
      Shaped n0 n1 n2 b1 ∧
      ∀ i0 i2, i0 < n0 → i2 < n2 → RowDoneS (frow n1 n2 i0 i2) n1 n2 i0 i2 b1 := by
  have hloop := forLoop_inv
    (fun i0 b0 => forLoop (fun i2 b1 => rowBodyWith Val.lt (n1 : Int) (n2 : Int) f i0 i2 b1) n2 0 b0)
    (fun i0 B => Shaped n0 n1 n2 B ∧
      ∀ a c, a < i0 → c < n2 → RowDoneS (frow n1 n2 a c) n1 n2 a c B) n0 0
    (by
      rintro i0 B _ hi0 ⟨hs, hprev⟩
      exact rowLoopS_spec f n0 n1 n2 i0 (by omega) hn frow hfr B hs hprev)
    b ⟨hb, fun a c ha _ => absurd ha (Nat.not_lt_zero a)⟩
  obtain ⟨B, hrun, hs, hdone⟩ := hloop
  simp only [Nat.zero_add] at hdone
  simp only [Nat.cast_zero] at hrun
  refine ⟨B, ?_, hs, hdone⟩
  simp only [BasinFinderStrict, BasinFinderWith, sub_zero, Int.toNat_ofNat]
  exact hrun

theorem functorS_spec (f : List Val) (n0 n1 n2 : Nat) (hn : 1 ≤ n1)
    (hl : f.length = n0 * n1 * n2) (hfin : AllFinite f) (b : Bufs) (hb : Shaped n0 n1 n2 b) :
    ∃ b1, BasinFinderStrict (n0 : Int) (n1 : Int) (n2 : Int) f b = .ok b1 ∧
      Shaped n0 n1 n2 b1 ∧
      ∀ i0 i2, i0 < n0 → i2 < n2 → RowDoneS (frow f n1 n2 i0 i2) n1 n2 i0 i2 b1 :=
  functorS_spec_gen f n0 n1 n2 hn (frow f)
    (fun a c ha hc => frow_rowIs f n0 n1 n2 a c ha hc hl hfin) b hb

end BasinFinder

/-! ## The two pop conditions compared -/

namespace BasinFinder

theorem popLoopWith_le (d o1 o2 : Int) (f z : List Val) (v : List Int) (q : Int) :
    ∀ (fuel : Nat) (k : Int) (s : Val),
      popLoopWith Val.le d o1 o2 f z v q fuel k s = popLoop d o1 o2 f z v q fuel k s := by
  intro fuel
  induction fuel with
  | zero => intro k s; rfl
  | succ n ih =>
    intro k s
    simp only [popLoopWith, popLoop]
    cases rd BufId.z z (o2 + k * d) with
    | error e => rfl
    | ok zk =>
      simp only
      split
      · cases intersect d o1 f v q (k - 1) with
        | error e => rfl
        | ok s1 => exact ih (k - 1) s1
      · rfl

theorem buildStepWith_le (d o1 o2 : Int) (f : List Val) (q : Int)
    (st : Int × List Val × List Int) :
    buildStepWith Val.le d o1 o2 f q st = buildStep d o1 o2 f q st := by
  simp only [buildStepWith, buildStep, popLoopWith_le] <;> rfl

theorem rowBodyWith_le (dim1 dim2 : Int) (f : List Val) (i0 i2 : Int) (b : Bufs) :
    rowBodyWith Val.le dim1 dim2 f i0 i2 b = rowBody dim1 dim2 f i0 i2 b := by
  have h1 : ∀ o1 o2, buildStepWith Val.le dim2 o1 o2 f = buildStep dim2 o1 o2 f := by
    intro o1 o2
    funext q st
    exact buildStepWith_le dim2 o1 o2 f q st
  simp only [rowBodyWith, rowBody, rowBuildWith, rowBuild, rowBuildUpToWith, rowBuildUpTo,
    buildSweepToWith, buildSweepTo, h1] <;> rfl

/-- The algorithm with the pop condition `<=` is the functor. -/
theorem basinFinderWith_le (dim0 dim1 dim2 : Int) (f : List Val) (b : Bufs) :
    BasinFinderWith Val.le dim0 dim1 dim2 f b = BasinFinderFunctor dim0 dim1 dim2 f b := by
  have h1 : ∀ i0, (fun i2 b1 => rowBodyWith Val.le dim1 dim2 f i0 i2 b1) =
      (fun i2 b1 => rowBody dim1 dim2 f i0 i2 b1) := by
    intro i0
    funext i2 b1
    exact rowBodyWith_le dim1 dim2 f i0 i2 b1
  simp only [BasinFinderWith, BasinFinderFunctor, h1]

/-- Both row models report the least position attaining the minimum, hence the same basin. -/
theorem rowBasin_eq_strict (fr : Nat → ℚ) (n q : Nat) :
    rowBasin (rowStackAt fr n) q = rowBasin (rowStackS fr n) q := by
  have inv := buildInv ℚ fr n
  have invS := buildInvS ℚ fr n
  have hb := rowBasin_le inv q
  have hbS := rowBasinW_le invS q
  rcases Nat.lt_trichotomy (rowBasin (rowStackAt fr n) q) (rowBasin (rowStackS fr n) q) with
    h | h | h
  · have h1 := rowBasinW_least invS q _ h
    have h2 := rowBasin_min (K := ℚ) inv q (rowBasin (rowStackS fr n) q) hbS
    exact absurd h2 (not_le.mpr h1)
  · exact h
  · have h1 := rowBasin_least inv q _ h
    have h2 := rowBasinW_min (K := ℚ) invS q (rowBasin (rowStackAt fr n) q) hb
    exact absurd h2 (not_le.mpr h1)

theorem rowOut_eq_strict (fr : Nat → ℚ) (n q : Nat) :
    rowOut fr (rowStackAt fr n) q = rowOut fr (rowStackS fr n) q := by
  simp only [rowOut, rowBasin_eq_strict]

/-- On finite samples the functor and the strict algorithm both return, with the same `out`
and `basins`. -/
theorem strict_same_results (f : List Val) (n0 n1 n2 : Nat) (hn : 1 ≤ n1)
    (hl : f.length = n0 * n1 * n2) (hfin : AllFinite f) (b b' : Bufs)
    (hb : Shaped n0 n1 n2 b) (hb' : Shaped n0 n1 n2 b') :
    ∃ B B', BasinFinderFunctor (n0 : Int) (n1 : Int) (n2 : Int) f b = .ok B ∧
      BasinFinderStrict (n0 : Int) (n1 : Int) (n2 : Int) f b' = .ok B' ∧
      B.basins = B'.basins ∧ B.out = B'.out := by
  obtain ⟨B, hrun, hs, hrow⟩ := functor_spec f n0 n1 n2 hn hl hfin b hb
  obtain ⟨B', hrun', hs', hrow'⟩ := functorS_spec f n0 n1 n2 hn hl hfin b' hb'
  refine ⟨B, B', hrun, hrun', ?_, ?_⟩
  · apply list_eq_of_rows _ _ n0 n1 n2 hs.basins_len hs'.basins_len
    intro i0 i2 j h0 h2 hj
    rw [(hrow i0 i2 h0 h2).basins_row j hj, (hrow' i0 i2 h0 h2).basins_row j hj]
    simp only [rowBasin_eq_strict]
  · apply list_eq_of_rows _ _ n0 n1 n2 hs.out_len hs'.out_len
    intro i0 i2 j h0 h2 hj
    rw [(hrow i0 i2 h0 h2).out_row j hj, (hrow' i0 i2 h0 h2).out_row j hj]
    simp only [rowOut_eq_strict]

/-- C16, as stated, fails: there is no row of finite samples on which the `basins` array of
the functor differs from the `basins` array of the algorithm with the strict pop condition. -/
theorem C16_counterexample :
    ¬ ∃ (n1 : Nat) (f : List Val) (b b' B B' : Bufs),
      1 ≤ n1 ∧ f.length = 1 * n1 * 1 ∧ AllFinite f ∧ Shaped 1 n1 1 b ∧ Shaped 1 n1 1 b' ∧
      BasinFinderFunctor ((1 : ℕ) : Int) (n1 : Int) ((1 : ℕ) : Int) f b = .ok B ∧
      BasinFinderStrict ((1 : ℕ) : Int) (n1 : Int) ((1 : ℕ) : Int) f b' = .ok B' ∧
      B.basins ≠ B'.basins := by
  rintro ⟨n1, f, b, b', B, B', hn, hl, hfin, hb, hb', hB, hB', hne⟩
  obtain ⟨C, C', hC, hC', heq, -⟩ := strict_same_results f 1 n1 1 hn hl hfin b b' hb hb'
  rw [hB] at hC
  rw [hB'] at hC'
  cases hC
  cases hC'
  exact hne heq

/-- C16 as amended. The pop tie-break direction is not observable in `basins` or `out`: for
every shape with `n1 ≥ 1` and finite samples, the functor (the algorithm with pop condition
`<=`) and the algorithm with the strict pop condition `<` both return, with equal `basins`
and equal `out`. It is observable in the bookkeeping arrays: on the row `0, 1, 0`, with the
tie `s = z[1] = 1` at `q = 2`, the functor leaves `v = [0, 2, 0]`, `z = [-inf, 1, +inf, 0]`
and the strict algorithm `v = [0, 1, 2]`, `z = [-inf, 1, 1, +inf]`. -/
theorem C16_tie_break_not_in_basins (f : List Val) (n0 n1 n2 : Nat) (hn : 1 ≤ n1)
    (hl : f.length = n0 * n1 * n2) (hfin : AllFinite f) (b b' : Bufs)
    (hb : Shaped n0 n1 n2 b) (hb' : Shaped n0 n1 n2 b') :
    (∃ B B', BasinFinderFunctor (n0 : Int) (n1 : Int) (n2 : Int) f b = .ok B ∧
      BasinFinderStrict (n0 : Int) (n1 : Int) (n2 : Int) f b' = .ok B' ∧
      B.basins = B'.basins ∧ B.out = B'.out) ∧
    BasinFinderWith Val.le (n0 : Int) (n1 : Int) (n2 : Int) f b =
      BasinFinderFunctor (n0 : Int) (n1 : Int) (n2 : Int) f b ∧
    BasinFinderFunctor 1 3 1 row010 junk3 =
      .ok ⟨[Val.fin 0, Val.fin 1, Val.fin 0], [Val.ninf, Val.fin 1, Val.pinf, Val.fin 0],
        [0, 2, 0], [0, 0, 2]⟩ ∧
    BasinFinderStrict 1 3 1 row010 junk3 =
      .ok ⟨[Val.fin 0, Val.fin 1, Val.fin 0], [Val.ninf, Val.fin 1, Val.fin 1, Val.pinf],
        [0, 1, 2], [0, 0, 2]⟩ :=
  ⟨strict_same_results f n0 n1 n2 hn hl hfin b b' hb hb', basinFinderWith_le _ _ _ f b,
    by decide!, by decide!⟩

/-- C16 as amended, at the row `0, 1, 0` of shape `[1,3,1]`. -/
theorem C16_witness :
    (1 ≤ 3 ∧ row010.length = 1 * 3 * 1 ∧ AllFinite row010 ∧ Shaped 1 3 1 junk3 ∧
      Shaped 1 3 1 junk3) ∧
    (∃ B B', BasinFinderFunctor ((1 : ℕ) : Int) ((3 : ℕ) : Int) ((1 : ℕ) : Int) row010 junk3 =
        .ok B ∧
      BasinFinderStrict ((1 : ℕ) : Int) ((3 : ℕ) : Int) ((1 : ℕ) : Int) row010 junk3 = .ok B' ∧
      B.basins = B'.basins ∧ B.out = B'.out) ∧
    BasinFinderWith Val.le ((1 : ℕ) : Int) ((3 : ℕ) : Int) ((1 : ℕ) : Int) row010 junk3 =
      BasinFinderFunctor ((1 : ℕ) : Int) ((3 : ℕ) : Int) ((1 : ℕ) : Int) row010 junk3 ∧
    BasinFinderFunctor 1 3 1 row010 junk3 =
      .ok ⟨[Val.fin 0, Val.fin 1, Val.fin 0], [Val.ninf, Val.fin 1, Val.pinf, Val.fin 0],
        [0, 2, 0], [0, 0, 2]⟩ ∧
    BasinFinderStrict 1 3 1 row010 junk3 =
      .ok ⟨[Val.fin 0, Val.fin 1, Val.fin 0], [Val.ninf, Val.fin 1, Val.fin 1, Val.pinf],
        [0, 1, 2], [0, 0, 2]⟩ :=
  ⟨⟨by decide, rfl, by simp [AllFinite, row010], ⟨rfl, rfl, rfl, rfl⟩, ⟨rfl, rfl, rfl, rfl⟩⟩,
    C16_tie_break_not_in_basins row010 1 3 1 (by decide) rfl (by simp [AllFinite, row010]) junk3
      junk3 ⟨rfl, rfl, rfl, rfl⟩ ⟨rfl, rfl, rfl, rfl⟩⟩

end BasinFinder
